import Mathlib

/-!
Verification of the chat streaming proxy of the Wayfinder Supply Co backend
(`backend/routers/chat.py`, `stream_agent_response`).

The development shallowly embeds the proxy:

* decoded JSON payloads are modelled by the inductive type `Json`
  (JSON numbers are modelled as integers; no claim involves a fractional
  number);
* Python dictionary/`in`/subscript/truthiness semantics are modelled by
  `pyIn`, `pySubscript`, `pyDictGetD`, `pyTruthy`, ...; operations that
  raise a Python exception on the given value are modelled in an
  `Except String` monad whose error strings name the exception class
  (the exact human-readable message text of a raised exception is
  abstracted);
* the byte-to-line frame decoder is modelled over `List Char` by
  `splitLines`/`feedChunks`/`extractFrames`, with `json.loads` kept as an
  abstract parameter `parse : List Char → Option Json` (a failing parse is
  `none`, matching the `json.JSONDecodeError` handler);
* the per-chunk `chunk.decode()` call is modelled at the byte level by
  `utf8Decode` (strict UTF-8, rejecting overlong forms, surrogates and
  truncated sequences, as CPython does) and lifted to whole streams by
  `utf8DecodeChunks`/`decodeFramesBytes`, whose boolean flag records a
  `UnicodeDecodeError` on a chunk ending mid-character;
* one upstream frame is handled by `processFrame`, a whole stream by
  `runFrames`/`streamRunWith`/`streamRun`, producing the list of
  client-facing events as `(type, data)` pairs (the SSE wire encoding
  `format_sse_event` adds only a constant wrapper around these pairs).
-/

/-- A decoded JSON value (the result of Python's `json.loads`), with JSON
`null` identified with Python `None`. Numbers are modelled as integers. -/
inductive Json where
  | null
  | bool (b : Bool)
  | num (n : Int)
  | str (s : String)
  | arr (elems : List Json)
  | obj (fields : List (String × Json))
deriving Repr

mutual

/-- Boolean structural equality on `Json` values. -/
def Json.beq : Json → Json → Bool
  | .null, .null => true
  | .bool a, .bool b => a == b
  | .num a, .num b => a == b
  | .str a, .str b => a == b
  | .arr xs, .arr ys => Json.beqList xs ys
  | .obj xs, .obj ys => Json.beqFields xs ys
  | _, _ => false

/-- Pointwise `Json.beq` on lists. -/
def Json.beqList : List Json → List Json → Bool
  | [], [] => true
  | x :: xs, y :: ys => Json.beq x y && Json.beqList xs ys
  | _, _ => false

/-- Pointwise `Json.beq` on association lists. -/
def Json.beqFields : List (String × Json) → List (String × Json) → Bool
  | [], [] => true
  | (k, v) :: xs, (k', v') :: ys => k == k' && Json.beq v v' && Json.beqFields xs ys
  | _, _ => false

end


/-- Python truthiness (`bool(x)`) of a decoded JSON value: `None`, `False`,
`0`, `""`, `[]` and `\x7b\x7d` are falsy, everything else is truthy. -/
def pyTruthy : Json → Bool
  | .null => false
  | .bool b => b
  | .num n => n != 0
  | .str s => !s.isEmpty
  | .arr xs => !xs.isEmpty
  | .obj fs => !fs.isEmpty

/-- Python's `isinstance(x, dict)` on a decoded JSON value. -/
def isDict : Json → Bool
  | .obj _ => true
  | _ => false

/-- Whether `xs` occurs as a contiguous sublist of `ys` (Python's substring
test `xs in ys` for strings). -/
def listIsInfix (xs ys : List Char) : Bool :=
  ys.tails.any (fun t => xs.isPrefixOf t)

/-- Python `k in j` for a decoded JSON value `j`: key membership on a dict,
element membership on a list, substring test on a string, and a `TypeError`
on the remaining (non-container) values. -/
def pyIn (k : String) (j : Json) : Except String Bool :=
  match j with
  | .obj fs => .ok (fs.any (fun p => decide (p.1 = k)))
  | .arr xs => .ok (xs.any (fun x => Json.beq x (Json.str k)))
  | .str s => .ok (listIsInfix k.data s.data)
  | _ => .error "TypeError"

/-- Python `j[k]` with a string key: dict lookup, raising `KeyError` for a
missing key and `TypeError` on anything that is not a dict. -/
def pySubscript (j : Json) (k : String) : Except String Json :=
  match j with
  | .obj fs =>
    match fs.find? (fun p => decide (p.1 = k)) with
    | some p => .ok p.2
    | none => .error "KeyError"
  | _ => .error "TypeError"

/-- Python `j.get(k, d)`: dict lookup with a default, raising
`AttributeError` when `j` is not a dict. -/
def pyDictGetD (j : Json) (k : String) (d : Json) : Except String Json :=
  match j with
  | .obj fs =>
    .ok (match fs.find? (fun p => decide (p.1 = k)) with
      | some p => p.2
      | none => d)
  | _ => .error "AttributeError"

/-- Python `j.get(k)` (default `None`). -/
def pyDictGet (j : Json) (k : String) : Except String Json :=
  pyDictGetD j k .null

/-- Short-circuiting Python `and` over two effectful boolean tests. -/
def pyAnd (a b : Except String Bool) : Except String Bool := do
  if ← a then b else pure false

mutual

/-- Python `repr()` of a decoded JSON value. -/
def pyRepr : Json → String
  | .null => "None"
  | .bool true => "True"
  | .bool false => "False"
  | .num n => toString n
  | .str s => "'" ++ s ++ "'"
  | .arr xs => "[" ++ pyReprList xs ++ "]"
  | .obj fs => "\x7b" ++ pyReprFields fs ++ "\x7d"

/-- Comma-separated `pyRepr` of list elements. -/
def pyReprList : List Json → String
  | [] => ""
  | [x] => pyRepr x
  | x :: xs => pyRepr x ++ ", " ++ pyReprList xs

/-- Comma-separated `pyRepr` of dict entries. -/
def pyReprFields : List (String × Json) → String
  | [] => ""
  | [(k, v)] => "'" ++ k ++ "': " ++ pyRepr v
  | (k, v) :: fs => "'" ++ k ++ "': " ++ pyRepr v ++ ", " ++ pyReprFields fs

end

/-- Python `str()` of a decoded JSON value (`str` of a string is itself,
everything else as `repr`). -/
def pyStr : Json → String
  | .str s => s
  | j => pyRepr j

/-- Key membership in a JSON object (`false` on non-objects); the pure
counterpart of `pyIn` used in specifications. -/
def objHasKey (j : Json) (k : String) : Bool :=
  match j with
  | .obj fs => fs.any (fun p => decide (p.1 = k))
  | _ => false

/-- Lookup of `k` in a JSON object with default `d` (the default on
non-objects); the pure counterpart of `pyDictGetD`. -/
def objGetD (j : Json) (k : String) (d : Json) : Json :=
  match j with
  | .obj fs =>
    match fs.find? (fun p => decide (p.1 = k)) with
    | some p => p.2
    | none => d
  | _ => d

/-- Lookup of `k` in a JSON object, `null` when absent; the pure
counterpart of `pyDictGet`. -/
def objGet (j : Json) (k : String) : Json :=
  objGetD j k .null

/-- The payload the handler chain works on: `raw_data.get("data", raw_data)`
(Agent Builder wraps payloads one level under a `data` key). -/
def unwrapData (raw : Json) : Json :=
  objGetD raw "data" raw

/-- Python `d[k] = v` on the field list of a dict: replace the binding of
`k` in place, or append it at the end when `k` is new. -/
def setKeyFields (fs : List (String × Json)) (k : String) (v : Json) : List (String × Json) :=
  match fs with
  | [] => [(k, v)]
  | (k', v') :: rest => if k' = k then (k, v) :: rest else (k', v') :: setKeyFields rest k v

/-- Python `j[k] = v` on a dict value. Ledger steps are always dicts, so the
identity fallback on other values is never exercised. -/
def setKey (j : Json) (k : String) (v : Json) : Json :=
  match j with
  | .obj fs => .obj (setKeyFields fs k v)
  | j => j

/-- The step-matching test of the source's linear scans:
`step.get("tool_call_id") == tool_call_id`. -/
def stepMatches (cid : Json) (s : Json) : Bool :=
  Json.beq (objGet s "tool_call_id") cid

/-- The tool-result update loop: set `results` on the first step whose
`tool_call_id` equals `cid` (and stop there, as the `break` does). -/
def updateResults (l : List Json) (cid : Json) (res : Json) : List Json :=
  match l with
  | [] => []
  | s :: ss => if stepMatches cid s then setKey s "results" res :: ss else s :: updateResults ss cid res

/-- The tool-call param update: set `params` on the first step whose
`tool_call_id` equals `cid`. -/
def updateParams (l : List Json) (cid : Json) (p : Json) : List Json :=
  match l with
  | [] => []
  | s :: ss => if stepMatches cid s then setKey s "params" p :: ss else s :: updateParams ss cid p

/-- The dict appended to `steps` for a non-transient reasoning frame. -/
def reasoningStep (t : Json) : Json :=
  Json.obj [("type", Json.str "reasoning"), ("reasoning", t)]

/-- The dict appended to `steps` for a newly seen tool call. -/
def mkToolStep (cid tid params : Json) : Json :=
  Json.obj [("type", Json.str "tool_call"), ("tool_call_id", cid), ("tool_id", tid),
    ("params", params), ("results", Json.arr [])]

/-- A client-facing event, as the `(type, data)` pair that
`format_sse_event` serializes. -/
abbrev CEvent := String × Json

/-- The orchestrator's per-request mutable state: the `steps` ledger and the
last seen `conversation_id`. -/
structure OState where
  steps : List Json
  conversationId : Json
deriving Repr

/-- The initial per-request state (`steps = []`, `conversation_id = ""`). -/
def initState : OState :=
  { steps := [], conversationId := Json.str "" }

/-- The `"error" in raw_data` branch: surface an upstream-declared error as
a client `error` event (message and optional code when the error is a dict,
its `str()` otherwise); the ledger and conversation id are untouched. -/
def handleUpstreamError (st : OState) (raw : Json) : Except String (OState × List CEvent) := do
  let errorInfo ← pySubscript raw "error"
  let errorMessage ← if isDict errorInfo then pyDictGetD errorInfo "message" (Json.str "Unknown error")
    else pure (Json.str (pyStr errorInfo))
  let code ← if isDict errorInfo then pyDictGet errorInfo "code" else pure Json.null
  return (st, [("error", Json.obj [("error", errorMessage), ("code", code)])])

/-- The `"conversation_id" in data` branch: record the conversation id and
emit `conversation_started`. -/
def handleConversationStarted (st : OState) (data : Json) : Except String (OState × List CEvent) := do
  let cid ← pySubscript data "conversation_id"
  return ({ st with conversationId := cid },
    [("conversation_started", Json.obj [("conversation_id", cid)])])

/-- The `"reasoning" in data` branch: a transient frame is swallowed whole
(no step, no event); otherwise a reasoning step is appended and a
`reasoning` event emitted. -/
def handleReasoning (st : OState) (data : Json) : Except String (OState × List CEvent) := do
  let reasoningText ← pySubscript data "reasoning"
  let transient ← pyDictGetD data "transient" (Json.bool false)
  if pyTruthy transient then
    return (st, [])
  else
    return ({ st with steps := st.steps ++ [reasoningStep reasoningText] },
      [("reasoning", Json.obj [("reasoning", reasoningText)])])

/-- The tool-result branch (both `results` and `tool_call_id` present): set
`results` on the first matching ledger step (if any) and emit
`tool_result`. -/
def handleToolResult (st : OState) (data : Json) : Except String (OState × List CEvent) := do
  let toolCallId ← pySubscript data "tool_call_id"
  let results ← pySubscript data "results"
  return ({ st with steps := updateResults st.steps toolCallId results },
    [("tool_result", Json.obj [("tool_call_id", toolCallId), ("results", results)])])

/-- The tool-call branch (`tool_call_id` without `results`): drop frames
with a falsy `tool_id`; update `params` of an existing step only when the
new `params` is truthy (no event); otherwise append a fresh step and emit
`tool_call`. -/
def handleToolCall (st : OState) (data : Json) : Except String (OState × List CEvent) := do
  let toolCallId ← pyDictGet data "tool_call_id"
  let toolId ← pyDictGet data "tool_id"
  let params ← pyDictGetD data "params" (Json.obj [])
  if !pyTruthy toolId then
    return (st, [])
  else if (st.steps.find? (stepMatches toolCallId)).isSome then
    return ({ st with steps := if pyTruthy params then updateParams st.steps toolCallId params else st.steps }, [])
  else
    return ({ st with steps := st.steps ++ [mkToolStep toolCallId toolId params] },
      [("tool_call", Json.obj [("tool_call_id", toolCallId), ("tool_id", toolId), ("params", params)])])

/-- The `"text_chunk" in data` branch: forward the chunk. -/
def handleTextChunk (st : OState) (data : Json) : Except String (OState × List CEvent) := do
  let t ← pySubscript data "text_chunk"
  return (st, [("message_chunk", Json.obj [("text_chunk", t)])])

/-- The `"message_content" in data` branch: forward the whole message. -/
def handleMessageContent (st : OState) (data : Json) : Except String (OState × List CEvent) := do
  let m ← pySubscript data "message_content"
  return (st, [("message_complete", Json.obj [("message_content", m)])])

/-- The `"round" in data` branch: when the round carries a nested response
message, forward it as `message_complete`. -/
def handleRound (st : OState) (data : Json) : Except String (OState × List CEvent) := do
  let roundData ← pySubscript data "round"
  if ← pyIn "response" roundData then
    let resp ← pySubscript roundData "response"
    if ← pyIn "message" resp then
      let msg ← pySubscript resp "message"
      return (st, [("message_complete", Json.obj [("message_content", msg)])])
    else
      return (st, [])
  else
    return (st, [])

/-- Handling of one decoded upstream payload `raw`: the body of the
`data:` branch of `stream_agent_response`, from `data = raw_data.get("data",
raw_data)` through the `elif` chain (each `elif` body is one of the
`handle…` definitions above). Returns the updated state and the client
events yielded for this frame, or the exception class name when the Python
code would raise (which ends the stream via the outer `except Exception`
handler). -/
def processFrame (st : OState) (raw : Json) : Except String (OState × List CEvent) := do
  let data ← pyDictGetD raw "data" raw
  if ← pyIn "error" raw then
    handleUpstreamError st raw
  else if ← pyIn "conversation_id" data then
    handleConversationStarted st data
  else if ← pyIn "reasoning" data then
    handleReasoning st data
  else if ← pyAnd (pyIn "results" data) (pyIn "tool_call_id" data) then
    handleToolResult st data
  else if ← pyIn "tool_call_id" data then
    handleToolCall st data
  else if ← pyIn "text_chunk" data then
    handleTextChunk st data
  else if ← pyIn "message_content" data then
    handleMessageContent st data
  else if ← pyIn "round" data then
    handleRound st data
  else
    return (st, [])

/-- Fold `processFrame` over the decoded payloads of one upstream stream,
collecting the yielded client events. A raised exception stops the fold,
returning the events yielded before it and the exception. -/
def runFrames (st : OState) : List Json → List CEvent × Except String OState
  | [] => ([], .ok st)
  | f :: fs =>
    match processFrame st f with
    | .ok (st', evs) =>
      let r := runFrames st' fs
      (evs ++ r.1, r.2)
    | .error e => ([], .error e)

/-- The final `completion` event, carrying the conversation id and the full
step snapshot. -/
def completionEvent (st : OState) : CEvent :=
  ("completion", Json.obj [("conversation_id", st.conversationId), ("steps", Json.arr st.steps)])

/-- How the upstream read loop ends: gracefully, or with an `httpx`
timeout, an `httpx` request error, or some other exception (the abstracted
exception text is the constructor argument). -/
inductive UpstreamEnd where
  | graceful
  | timeout
  | connError (msg : String)
  | otherExn (msg : String)
deriving DecidableEq, Repr

/-- The full client event sequence of one request whose upstream stream
decodes to `frames` and ends as `ending`: the per-frame events, then either
the final `completion` event (graceful end) or the single `error` event
produced by the matching `except` handler. A Python exception raised while
handling a frame reaches the same outer `except Exception` handler and the
transport ending is never observed. -/
def streamRunWith (frames : List Json) (ending : UpstreamEnd) : List CEvent :=
  let r := runFrames initState frames
  match r.2 with
  | .error e => r.1 ++ [("error", Json.obj [("error", Json.str ("Unexpected error: " ++ e))])]
  | .ok st =>
    match ending with
    | .graceful => r.1 ++ [completionEvent st]
    | .timeout => r.1 ++ [("error", Json.obj [("error", Json.str "Request timeout")])]
    | .connError m => r.1 ++ [("error", Json.obj [("error", Json.str ("Connection error: " ++ m))])]
    | .otherExn m => r.1 ++ [("error", Json.obj [("error", Json.str ("Unexpected error: " ++ m))])]

/-- The client event sequence for a gracefully ending upstream stream. -/
def streamRun (frames : List Json) : List CEvent :=
  streamRunWith frames .graceful

/-- The whitespace characters stripped by Python's `str.strip()` on the
ASCII lines of the SSE protocol. -/
def pyIsSpace (c : Char) : Bool :=
  c = ' ' || c = '\t' || c = '\n' || c = '\r' || c = '\x0b' || c = '\x0c'

/-- Python `line.strip()` over the characters of a line. -/
def pyStrip (l : List Char) : List Char :=
  ((l.dropWhile pyIsSpace).reverse.dropWhile pyIsSpace).reverse

/-- The buffer-splitting loop `while "\n" in buffer: line, buffer =
buffer.split("\n", 1)`: all complete (newline-terminated) lines of the
buffer, and the trailing partial line kept as the new buffer. -/
def splitLines : List Char → List (List Char) × List Char
  | [] => ([], [])
  | c :: cs =>
    if c = '\n' then
      ([] :: (splitLines cs).1, (splitLines cs).2)
    else
      match splitLines cs with
      | ([], r) => ([], c :: r)
      | (l :: ls, r) => ((c :: l) :: ls, r)

/-- Feeding a sequence of decoded byte chunks through the pending-bytes
buffer: each chunk is appended to the buffer, complete lines are split off
and emitted, and the final partial line is returned (it is discarded when
the stream ends). -/
def feedChunks (buf : List Char) : List (List Char) → List (List Char) × List Char
  | [] => ([], buf)
  | ch :: rest =>
    let r := splitLines (buf ++ ch)
    let r' := feedChunks r.2 rest
    (r.1 ++ r'.1, r'.2)

/-- The characters of the `event: ` line marker. -/
def eventMarker : List Char := "event: ".data

/-- The characters of the `data: ` line marker. -/
def dataMarker : List Char := "data: ".data

/-- The per-line handling of the decoder: strip the line, skip blank lines,
let `event: ` lines set the current event type, parse the payload of
`data: ` lines with `parse` (Python's `json.loads`; `none` models
`json.JSONDecodeError`, which is silently skipped), and ignore any other
line. Yields the decoded `(event type, payload)` frames in order. -/
def extractFrames (parse : List Char → Option Json) (evTy : List Char) : List (List Char) → List (List Char × Json)
  | [] => []
  | l :: ls =>
    let line := pyStrip l
    if line.isEmpty then extractFrames parse evTy ls
    else if eventMarker.isPrefixOf line then extractFrames parse (pyStrip (line.drop 7)) ls
    else if dataMarker.isPrefixOf line then
      match parse (line.drop 6) with
      | some j => (evTy, j) :: extractFrames parse evTy ls
      | none => extractFrames parse evTy ls
    else extractFrames parse evTy ls

/-- The frame decoder over a whole request: accumulate the chunks through
the pending buffer (initially empty, trailing partial line discarded at
end-of-stream) and decode the complete lines into frames, starting with an
empty current event type. -/
def decodeFrames (parse : List Char → Option Json) (chunks : List (List Char)) : List (List Char × Json) :=
  extractFrames parse [] (feedChunks [] chunks).1

/-- The proxy end to end on a gracefully ending upstream byte stream: decode
the chunks into frames and run the orchestrator on their payloads. -/
def proxyRun (parse : List Char → Option Json) (chunks : List (List Char)) : List CEvent :=
  streamRun ((decodeFrames parse chunks).map Prod.snd)

/-- A payload whose top level and unwrapped `data` level are both dicts and
that matches none of the error / conversation-started / reasoning rules:
the shape under which the two tool-related branches are reached. -/
def plainObjFrame (raw : Json) : Bool :=
  isDict raw && isDict (unwrapData raw) && !objHasKey raw "error" &&
    !objHasKey (unwrapData raw) "conversation_id" && !objHasKey (unwrapData raw) "reasoning"

/-- A frame the source classifies as a tool result: both `results` and
`tool_call_id` present (after the higher-precedence rules failed). -/
def toolResultFrame (raw : Json) : Bool :=
  plainObjFrame raw && objHasKey (unwrapData raw) "results" &&
    objHasKey (unwrapData raw) "tool_call_id"

/-- A frame the source classifies as a recordable tool call: `tool_call_id`
present without `results`, and a truthy `tool_id` (frames with a falsy
`tool_id` are dropped by the `continue`). -/
def toolCallFrame (raw : Json) : Bool :=
  plainObjFrame raw && !objHasKey (unwrapData raw) "results" &&
    objHasKey (unwrapData raw) "tool_call_id" &&
    pyTruthy (objGet (unwrapData raw) "tool_id")

/-- The `tool_call_id` carried by a frame's payload. -/
def frameCallId (raw : Json) : Json :=
  objGet (unwrapData raw) "tool_call_id"

/-- The `params` carried by a frame's payload (`\x7b\x7d` when absent, as in
`data.get("params", \x7b\x7d)`). -/
def frameParams (raw : Json) : Json :=
  objGetD (unwrapData raw) "params" (Json.obj [])

/-- The `results` carried by a frame's payload. -/
def frameResults (raw : Json) : Json :=
  objGet (unwrapData raw) "results"

/-- The `tool_id` carried by a frame's payload. -/
def frameToolId (raw : Json) : Json :=
  objGet (unwrapData raw) "tool_id"

/-- The number of ledger steps whose `tool_call_id` equals `cid`. -/
def countMatches (l : List Json) (cid : Json) : Nat :=
  (l.filter (stepMatches cid)).length

/-- The first ledger step whose `tool_call_id` equals `cid` (the step the
source's linear scans operate on). -/
def stepFor (l : List Json) (cid : Json) : Option Json :=
  l.find? (stepMatches cid)

/-- The `results` field of the step for `cid`, when such a step exists. -/
def resultsView (l : List Json) (cid : Json) : Option Json :=
  (stepFor l cid).map (fun s => objGet s "results")

/-- The `params` field of the step for `cid`, when such a step exists. -/
def paramsView (l : List Json) (cid : Json) : Option Json :=
  (stepFor l cid).map (fun s => objGet s "params")

/-- Scenario A input frames: conversation start, a search tool call, its
result. -/
def scenarioAFrames : List Json :=
  [Json.obj [("conversation_id", Json.str "c1")],
   Json.obj [("tool_call_id", Json.str "t1"), ("tool_id", Json.str "search"),
     ("params", Json.obj [("q", Json.str "tent")])],
   Json.obj [("tool_call_id", Json.str "t1"), ("results", Json.arr [Json.obj [("id", Json.str "p1")]])]]

/-- Scenario A expected client events, in order. -/
def scenarioAEvents : List CEvent :=
  [("conversation_started", Json.obj [("conversation_id", Json.str "c1")]),
   ("tool_call", Json.obj [("tool_call_id", Json.str "t1"), ("tool_id", Json.str "search"),
     ("params", Json.obj [("q", Json.str "tent")])]),
   ("tool_result", Json.obj [("tool_call_id", Json.str "t1"),
     ("results", Json.arr [Json.obj [("id", Json.str "p1")]])]),
   ("completion", Json.obj [("conversation_id", Json.str "c1"),
     ("steps", Json.arr [Json.obj [("type", Json.str "tool_call"), ("tool_call_id", Json.str "t1"),
       ("tool_id", Json.str "search"), ("params", Json.obj [("q", Json.str "tent")]),
       ("results", Json.arr [Json.obj [("id", Json.str "p1")]])]])])]

/-- Scenario B input frame: an upstream-declared rate-limit error. -/
def upstreamErrorFrame : Json :=
  Json.obj [("error", Json.obj [("message", Json.str "rate limited"), ("code", Json.num 429)])]

/-- A tool-call frame carrying a `tool_id` but no `params` key. -/
def emptyParamsToolCallFrame : Json :=
  Json.obj [("tool_call_id", Json.str "t1"), ("tool_id", Json.str "search")]

/-- A tool-call frame for call `t1` with non-empty params. -/
def searchToolCallFrame : Json :=
  Json.obj [("tool_call_id", Json.str "t1"), ("tool_id", Json.str "search"),
    ("params", Json.obj [("q", Json.str "tent")])]

/-- A tool-result frame for call `t1`. -/
def searchToolResultFrame : Json :=
  Json.obj [("tool_call_id", Json.str "t1"), ("results", Json.arr [Json.str "r1"])]

/-- A transient reasoning frame, as emitted for conversational filler. -/
def transientReasoningFrame : Json :=
  Json.obj [("reasoning", Json.str "Consulting my tools"), ("transient", Json.bool true)]

/-- A concrete stand-in for `json.loads` used to instantiate the
parser-generic decoder theorems. -/
def parseAsString (l : List Char) : Option Json :=
  some (Json.str (String.mk l))

/-- The orchestrator state after `searchToolCallFrame` then
`searchToolResultFrame`. -/
def c4WitnessState : OState :=
  { steps := [Json.obj [("type", Json.str "tool_call"), ("tool_call_id", Json.str "t1"),
      ("tool_id", Json.str "search"), ("params", Json.obj [("q", Json.str "tent")]),
      ("results", Json.arr [Json.str "r1"])]],
    conversationId := Json.str "" }

/-- The orchestrator state after `emptyParamsToolCallFrame` then
`searchToolCallFrame`. -/
def c5WitnessState : OState :=
  { steps := [Json.obj [("type", Json.str "tool_call"), ("tool_call_id", Json.str "t1"),
      ("tool_id", Json.str "search"), ("params", Json.obj [("q", Json.str "tent")]),
      ("results", Json.arr [])]],
    conversationId := Json.str "" }


/-- Whether a byte is a UTF-8 continuation byte (`0x80`–`0xBF`). -/
def utf8Cont (b : Nat) : Bool :=
  decide (0x80 ≤ b ∧ b ≤ 0xBF)

/-- The admissible first continuation byte after a three-byte lead `b`:
`0xE0` forbids overlong encodings (`b1 ≥ 0xA0`), `0xED` forbids surrogates
(`b1 ≤ 0x9F`), as in Python's strict UTF-8 decoder. -/
def utf8Cont3 (b b1 : Nat) : Bool :=
  if b = 0xE0 then decide (0xA0 ≤ b1 ∧ b1 ≤ 0xBF)
  else if b = 0xED then decide (0x80 ≤ b1 ∧ b1 ≤ 0x9F)
  else utf8Cont b1

/-- The admissible first continuation byte after a four-byte lead `b`:
`0xF0` forbids overlong encodings (`b1 ≥ 0x90`), `0xF4` forbids code points
above `U+10FFFF` (`b1 ≤ 0x8F`). -/
def utf8Cont4 (b b1 : Nat) : Bool :=
  if b = 0xF0 then decide (0x90 ≤ b1 ∧ b1 ≤ 0xBF)
  else if b = 0xF4 then decide (0x80 ≤ b1 ∧ b1 ≤ 0x8F)
  else utf8Cont b1

/-- Strict UTF-8 decoding of one character from the head of a byte list,
returning the character and the remaining bytes, or `none` where Python's
`bytes.decode()` raises `UnicodeDecodeError` (truncated sequence, stray
continuation byte, overlong form, surrogate, out-of-range lead). -/
def utf8DecodeOne : List Nat → Option (Char × List Nat)
  | [] => none
  | b :: rest =>
    if b ≤ 0x7F then
      some (Char.ofNat b, rest)
    else if 0xC2 ≤ b ∧ b ≤ 0xDF then
      match rest with
      | b1 :: rest1 =>
        if utf8Cont b1 then
          some (Char.ofNat ((b - 0xC0) * 0x40 + (b1 - 0x80)), rest1)
        else none
      | [] => none
    else if 0xE0 ≤ b ∧ b ≤ 0xEF then
      match rest with
      | b1 :: b2 :: rest2 =>
        if utf8Cont3 b b1 && utf8Cont b2 then
          some (Char.ofNat ((b - 0xE0) * 0x1000 + (b1 - 0x80) * 0x40 + (b2 - 0x80)), rest2)
        else none
      | _ => none
    else if 0xF0 ≤ b ∧ b ≤ 0xF4 then
      match rest with
      | b1 :: b2 :: b3 :: rest3 =>
        if utf8Cont4 b b1 && utf8Cont b2 && utf8Cont b3 then
          some (Char.ofNat ((b - 0xF0) * 0x40000 + (b1 - 0x80) * 0x1000 +
            (b2 - 0x80) * 0x40 + (b3 - 0x80)), rest3)
        else none
      | _ => none
    else none

/-- Fuelled strict UTF-8 decoding of a whole byte list (the fuel only bounds
the recursion; one unit per decoded character suffices). -/
def utf8DecodeFuel : Nat → List Nat → Option (List Char)
  | _, [] => some []
  | 0, _ :: _ => none
  | fuel + 1, b :: rest =>
    match utf8DecodeOne (b :: rest) with
    | none => none
    | some (c, r) => (utf8DecodeFuel fuel r).map (fun cs => c :: cs)

/-- Python `chunk.decode()` with the default strict UTF-8 codec: the decoded
characters, or `none` for the `UnicodeDecodeError` raised on a chunk that is
not valid UTF-8 — in particular a chunk that ends in the middle of a
multi-byte character. -/
def utf8Decode (l : List Nat) : Option (List Char) :=
  utf8DecodeFuel l.length l

/-- Per-chunk decoding of the upstream byte chunks, as in
`buffer += chunk.decode()`: the chunks decoded before the first failure, and
whether a `UnicodeDecodeError` occurred (which the source's outer
`except Exception` handler turns into an `error` event that ends the
stream). -/
def utf8DecodeChunks : List (List Nat) → List (List Char) × Bool
  | [] => ([], false)
  | ch :: rest =>
    match utf8Decode ch with
    | none => ([], true)
    | some cs =>
      let r := utf8DecodeChunks rest
      (cs :: r.1, r.2)

/-- The frame decoder on raw byte chunks: each chunk passes through
`chunk.decode()` before entering the pending-bytes buffer, so the output is
the frames decoded from the successfully decoded prefix of chunks together
with the decode-error flag. -/
def decodeFramesBytes (parse : List Char → Option Json) (chunks : List (List Nat)) :
    List (List Char × Json) × Bool :=
  let r := utf8DecodeChunks chunks
  (decodeFrames parse r.1, r.2)

/-- The bytes of the line `data: ` + é + newline; é is the two-byte UTF-8
sequence `0xC3 0xA9`. -/
def c3WholeChunk : List Nat :=
  [0x64, 0x61, 0x74, 0x61, 0x3A, 0x20, 0xC3, 0xA9, 0x0A]

/-- The same bytes cut between `0xC3` and `0xA9`: the first chunk ends in
the middle of the two-byte character. -/
def c3SplitChunkA : List Nat := [0x64, 0x61, 0x74, 0x61, 0x3A, 0x20, 0xC3]

/-- The second half of the split: a stray continuation byte, then the
newline. -/
def c3SplitChunkB : List Nat := [0xA9, 0x0A]

/-- The ASCII bytes of a string, for UTF-8-aligned witness chunks. -/
def asciiBytes (s : String) : List Nat :=
  s.data.map Char.toNat

/-! ### Properties of the embedded operations -/
mutual

theorem Json.beq_iff : ∀ a b : Json, Json.beq a b = true ↔ a = b
  | .null, b => by cases b <;> simp [Json.beq]
  | .bool a, b => by cases b <;> simp [Json.beq]
  | .num a, b => by cases b <;> simp [Json.beq]
  | .str a, b => by cases b <;> simp [Json.beq]
  | .arr xs, b => by
      cases b with
      | arr ys => simp only [Json.beq, Json.arr.injEq]; exact Json.beqList_iff xs ys
      | null => simp [Json.beq]
      | bool b => simp [Json.beq]
      | num n => simp [Json.beq]
      | str s => simp [Json.beq]
      | obj fs => simp [Json.beq]
  | .obj xs, b => by
      cases b with
      | obj ys => simp only [Json.beq, Json.obj.injEq]; exact Json.beqFields_iff xs ys
      | null => simp [Json.beq]
      | bool b => simp [Json.beq]
      | num n => simp [Json.beq]
      | str s => simp [Json.beq]
      | arr ys => simp [Json.beq]

theorem Json.beqList_iff : ∀ xs ys : List Json, Json.beqList xs ys = true ↔ xs = ys
  | [], ys => by cases ys <;> simp [Json.beqList]
  | x :: xs, ys => by
      cases ys with
      | nil => simp [Json.beqList]
      | cons y ys =>
        simp only [Json.beqList, Bool.and_eq_true, List.cons.injEq]
        rw [Json.beq_iff, Json.beqList_iff]

theorem Json.beqFields_iff : ∀ xs ys : List (String × Json), Json.beqFields xs ys = true ↔ xs = ys
  | [], ys => by cases ys <;> simp [Json.beqFields]
  | (k, v) :: xs, ys => by
      cases ys with
      | nil => simp [Json.beqFields]
      | cons p ys =>
        obtain ⟨k', v'⟩ := p
        simp only [Json.beqFields, Bool.and_eq_true, List.cons.injEq, beq_iff_eq, Prod.mk.injEq]
        rw [Json.beq_iff, Json.beqFields_iff]

end

theorem stepMatches_iff {cid s : Json} : stepMatches cid s = true ↔ objGet s "tool_call_id" = cid := by
  simpa [stepMatches] using Json.beq_iff (objGet s "tool_call_id") cid

theorem stepMatches_eq_false_iff {cid s : Json} :
    stepMatches cid s = false ↔ objGet s "tool_call_id" ≠ cid := by
  rw [← Bool.not_eq_true, not_iff_not]
  exact stepMatches_iff

@[simp] theorem except_ok_bind {α β : Type} (a : α) (f : α → Except String β) :
    (Except.ok a : Except String α) >>= f = f a := rfl

@[simp] theorem except_error_bind {α β : Type} (e : String) (f : α → Except String β) :
    (Except.error e : Except String α) >>= f = Except.error e := rfl

/-! ### Claim theorems -/

/-- C1: for the upstream frame sequence `conversation_id c1`, `tool_call
t1/search/q=tent`, `tool_result t1`, followed by end-of-stream, the
orchestrator emits exactly `conversation_started`, `tool_call`,
`tool_result`, and a final `completion` event carrying conversation id `c1`
and the single fully populated tool-call step, in this order. -/
theorem c1_scenario_a_events : streamRun scenarioAFrames = scenarioAEvents := rfl

/-- C7 (counterexample): contrary to the claim, after the upstream-declared
error frame of Scenario B the stream does not end without a completion
event: the client receives the `error` event and then a `completion`
event. -/
theorem c7_no_completion_counterexample :
    (streamRun [upstreamErrorFrame]).map Prod.fst = ["error", "completion"] := rfl

/-- C7 (amended): for the upstream frame `error(message "rate limited",
code 429)` followed by end-of-stream, the client receives exactly one
`error` event carrying error `rate limited` and code `429`, followed by a
final `completion` event with the empty conversation id and an empty steps
list (the upstream-declared error does not suppress the completion). -/
theorem c7_amended_upstream_error_events :
    streamRun [upstreamErrorFrame] =
      [("error", Json.obj [("error", Json.str "rate limited"), ("code", Json.num 429)]),
       ("completion", Json.obj [("conversation_id", Json.str ""), ("steps", Json.arr [])])] := rfl

/-- C9 (counterexample): contrary to the claim, a tool-call frame carrying a
`tool_id` and empty `params`, arriving when no ledger step with its call id
exists, is not dropped: a step (with empty params) is appended to the
ledger and a `tool_call` client event is emitted. -/
theorem c9_not_dropped_counterexample :
    streamRun [emptyParamsToolCallFrame] =
      [("tool_call", Json.obj [("tool_call_id", Json.str "t1"), ("tool_id", Json.str "search"),
         ("params", Json.obj [])]),
       ("completion", Json.obj [("conversation_id", Json.str ""),
         ("steps", Json.arr [mkToolStep (Json.str "t1") (Json.str "search") (Json.obj [])])])] := rfl

theorem splitLines_fst_nil : ∀ x : List Char, (splitLines x).1 = [] → (splitLines x).2 = x := by
  intro x
  induction x with
  | nil => simp [splitLines]
  | cons c cs ih =>
    by_cases hc : c = '\n'
    · simp [splitLines, hc]
    · simp only [splitLines, hc, if_false]
      cases h : splitLines cs with
      | mk ls r =>
        cases ls with
        | nil =>
          intro
          have := ih (by rw [h])
          rw [h] at this
          simpa using this
        | cons l ls' => simp

theorem splitLines_append : ∀ a b : List Char,
    splitLines (a ++ b) =
      ((splitLines a).1 ++ (splitLines ((splitLines a).2 ++ b)).1,
        (splitLines ((splitLines a).2 ++ b)).2) := by
  intro a
  induction a with
  | nil => intro b; simp [splitLines]
  | cons c cs ih =>
    intro b
    by_cases hc : c = '\n'
    · have l1 : splitLines ((c :: cs) ++ b) = ([] :: (splitLines (cs ++ b)).1, (splitLines (cs ++ b)).2) := by
        show splitLines (c :: (cs ++ b)) = _
        simp [splitLines, hc]
      have l2 : splitLines (c :: cs) = ([] :: (splitLines cs).1, (splitLines cs).2) := by
        simp [splitLines, hc]
      rw [l1, l2, ih b]
      simp
    · cases h : splitLines cs with
      | mk ls r =>
        cases ls with
        | nil =>
          have hr : r = cs := by
            have h2 := splitLines_fst_nil cs (by rw [h])
            rw [h] at h2
            exact h2
          rw [hr] at h
          have l2 : splitLines (c :: cs) = ([], c :: cs) := by
            simp [splitLines, hc, h]
          rw [l2]
          simp [Prod.mk.eta]
        | cons l ls' =>
          have hsplit : splitLines (cs ++ b) = (l :: (ls' ++ (splitLines (r ++ b)).1), (splitLines (r ++ b)).2) := by
            rw [ih b, h]
            simp
          have l1 : splitLines ((c :: cs) ++ b) =
              ((c :: l) :: (ls' ++ (splitLines (r ++ b)).1), (splitLines (r ++ b)).2) := by
            show splitLines (c :: (cs ++ b)) = _
            simp [splitLines, hc, hsplit]
          have l2 : splitLines (c :: cs) = ((c :: l) :: ls', r) := by
            simp [splitLines, hc, h]
          rw [l1, l2]
          simp

theorem splitLines_no_newline : ∀ x : List Char, (∀ c ∈ x, c ≠ '\n') → splitLines x = ([], x) := by
  intro x
  induction x with
  | nil => intro _; simp [splitLines]
  | cons c cs ih =>
    intro h
    have hc : c ≠ '\n' := h c (by simp)
    have hcs := ih (fun d hd => h d (by simp [hd]))
    simp [splitLines, hc, hcs]

theorem splitLines_snd_no_newline : ∀ x : List Char, ∀ c ∈ (splitLines x).2, c ≠ '\n' := by
  intro x
  induction x with
  | nil => simp [splitLines]
  | cons c cs ih =>
    by_cases hc : c = '\n'
    · simpa [splitLines, hc] using ih
    · cases h : splitLines cs with
      | mk ls r =>
        cases ls with
        | nil =>
          have : splitLines (c :: cs) = ([], c :: r) := by simp [splitLines, hc, h]
          rw [this]
          intro d hd
          rcases List.mem_cons.mp hd with h1 | h2
          · rw [h1]; exact hc
          · exact ih d (by rw [h]; exact h2)
        | cons l ls' =>
          have : splitLines (c :: cs) = ((c :: l) :: ls', r) := by simp [splitLines, hc, h]
          rw [this]
          intro d hd
          exact ih d (by rw [h]; exact hd)

theorem feedChunks_eq : ∀ (chunks : List (List Char)) (buf : List Char),
    (∀ c ∈ buf, c ≠ '\n') → feedChunks buf chunks = splitLines (buf ++ chunks.flatten) := by
  intro chunks
  induction chunks with
  | nil =>
    intro buf hbuf
    simp [feedChunks, splitLines_no_newline buf hbuf]
  | cons ch rest ih =>
    intro buf hbuf
    have ih2 := ih (splitLines (buf ++ ch)).2 (splitLines_snd_no_newline (buf ++ ch))
    calc feedChunks buf (ch :: rest)
        = ((splitLines (buf ++ ch)).1 ++ (feedChunks (splitLines (buf ++ ch)).2 rest).1,
            (feedChunks (splitLines (buf ++ ch)).2 rest).2) := by simp [feedChunks]
      _ = ((splitLines (buf ++ ch)).1 ++ (splitLines ((splitLines (buf ++ ch)).2 ++ rest.flatten)).1,
            (splitLines ((splitLines (buf ++ ch)).2 ++ rest.flatten)).2) := by rw [ih2]
      _ = splitLines ((buf ++ ch) ++ rest.flatten) := (splitLines_append (buf ++ ch) rest.flatten).symm
      _ = splitLines (buf ++ (ch :: rest).flatten) := by simp

theorem decodeFrames_join (parse : List Char → Option Json) (chunks : List (List Char)) :
    decodeFrames parse chunks = extractFrames parse [] (splitLines chunks.flatten).1 := by
  unfold decodeFrames
  rw [feedChunks_eq chunks [] (by simp)]
  simp

/-- At the character level — after each chunk has been decoded — the frame
decoder depends only on the concatenation of the decoded chunks, not on
their boundaries (for any JSON parser `parse`). -/
theorem decodeFrames_flatten_invariant (parse : List Char → Option Json)
    (chunks₁ chunks₂ : List (List Char)) (h : chunks₁.flatten = chunks₂.flatten) :
    decodeFrames parse chunks₁ = decodeFrames parse chunks₂ := by
  rw [decodeFrames_join, decodeFrames_join, h]

/-- C10: a trailing partial line `p` (no line terminator) left in the buffer
when the stream ends gracefully is silently discarded: the full client event
sequence — including the final completion event — is identical to the run
without `p`, for any JSON parser; in particular `p` is never parsed, emits
no client event, and never updates the ledger. -/
theorem c10_trailing_partial_discarded (parse : List Char → Option Json) (b p : List Char)
    (hp : ∀ c ∈ p, c ≠ '\n') (hb : (splitLines b).2 = []) :
    proxyRun parse [b ++ p] = proxyRun parse [b] := by
  have hlines : (splitLines (b ++ p)).1 = (splitLines b).1 := by
    rw [splitLines_append b p, hb]
    simp [splitLines_no_newline p hp]
  have hd : decodeFrames parse [b ++ p] = decodeFrames parse [b] := by
    rw [decodeFrames_join, decodeFrames_join]
    simp only [List.flatten, List.append_nil]
    rw [hlines]
  simp only [proxyRun, hd]

/-- C10 witness: a complete `data: a` line followed by an unterminated
`data: partial` line produces the same events as the complete line alone. -/
theorem c10_trailing_partial_discarded_witness :
    proxyRun parseAsString ["data: a\n".data ++ "data: partial".data] =
      proxyRun parseAsString ["data: a\n".data] :=
  c10_trailing_partial_discarded parseAsString "data: a\n".data "data: partial".data
    (by decide) (by decide)

@[simp] theorem pyDictGetD_obj (fs : List (String × Json)) (k : String) (d : Json) :
    pyDictGetD (Json.obj fs) k d = .ok (objGetD (Json.obj fs) k d) := rfl

@[simp] theorem pyDictGet_obj (fs : List (String × Json)) (k : String) :
    pyDictGet (Json.obj fs) k = .ok (objGet (Json.obj fs) k) := rfl

@[simp] theorem pyIn_obj (fs : List (String × Json)) (k : String) :
    pyIn k (Json.obj fs) = .ok (objHasKey (Json.obj fs) k) := rfl

@[simp] theorem pyAnd_ok_ok (a b : Bool) : pyAnd (.ok a) (.ok b) = .ok (a && b) := by
  cases a <;> rfl

@[simp] theorem except_pure {α : Type} (x : α) : (pure x : Except String α) = .ok x := rfl

theorem pySubscript_of_hasKey {j : Json} {k : String} (h : objHasKey j k = true) :
    pySubscript j k = .ok (objGet j k) := by
  cases j with
  | obj fs =>
    rcases hf : fs.find? (fun p => decide (p.1 = k)) with _ | p
    · rw [objHasKey, List.any_eq_true] at h
      obtain ⟨x, hx, hpx⟩ := h
      rw [List.find?_eq_none] at hf
      exact absurd hpx (by simpa using hf x hx)
    · simp [pySubscript, objGet, objGetD, hf]
  | null => simp [objHasKey] at h
  | bool b => simp [objHasKey] at h
  | num n => simp [objHasKey] at h
  | str s => simp [objHasKey] at h
  | arr xs => simp [objHasKey] at h

theorem pySubscript_ok_inv {j : Json} {k : String} {v : Json} (h : pySubscript j k = .ok v) :
    isDict j = true ∧ objHasKey j k = true ∧ objGet j k = v := by
  cases j with
  | obj fs =>
    rcases hf : fs.find? (fun p => decide (p.1 = k)) with _ | q
    · simp only [pySubscript, hf] at h
      exact absurd h (by simp)
    · simp only [pySubscript, hf, Except.ok.injEq] at h
      refine ⟨rfl, ?_, ?_⟩
      · rw [objHasKey, List.any_eq_true]
        refine ⟨q, List.mem_of_find?_eq_some hf, ?_⟩
        have := List.find?_some hf
        simpa using this
      · simp only [objGet, objGetD, hf]
        exact h
  | null => simp [pySubscript] at h
  | bool b => simp [pySubscript] at h
  | num n => simp [pySubscript] at h
  | str s => simp [pySubscript] at h
  | arr xs => simp [pySubscript] at h

theorem handleUpstreamError_ok {st : OState} {raw : Json} {st' : OState} {evs : List CEvent}
    (h : handleUpstreamError st raw = .ok (st', evs)) : st' = st := by
  unfold handleUpstreamError at h
  cases hs : pySubscript raw "error" with
  | error e => rw [hs] at h; simp at h
  | ok v =>
    rw [hs] at h
    simp only [except_ok_bind] at h
    split at h
    · cases hm : pyDictGetD v "message" (Json.str "Unknown error") with
      | error e => rw [hm] at h; simp at h
      | ok m =>
        rw [hm] at h
        simp only [except_ok_bind] at h
        cases hc : pyDictGet v "code" with
        | error e => rw [hc] at h; simp at h
        | ok c =>
          rw [hc] at h
          simp only [except_ok_bind, except_pure, Except.ok.injEq, Prod.mk.injEq] at h
          exact h.1.symm
    · simp only [except_pure, except_ok_bind, Except.ok.injEq, Prod.mk.injEq] at h
      exact h.1.symm

theorem handleConversationStarted_ok {st : OState} {data : Json} {st' : OState} {evs : List CEvent}
    (h : handleConversationStarted st data = .ok (st', evs)) : st'.steps = st.steps := by
  unfold handleConversationStarted at h
  cases hs : pySubscript data "conversation_id" with
  | error e => rw [hs] at h; simp at h
  | ok v =>
    rw [hs] at h
    simp only [except_ok_bind, except_pure, Except.ok.injEq, Prod.mk.injEq] at h
    rw [← h.1]

theorem handleReasoning_ok {st : OState} {data : Json} {st' : OState} {evs : List CEvent}
    (h : handleReasoning st data = .ok (st', evs)) :
    isDict data = true ∧
      (st'.steps = st.steps ∨ ∃ t, st'.steps = st.steps ++ [reasoningStep t]) := by
  unfold handleReasoning at h
  cases hs : pySubscript data "reasoning" with
  | error e => rw [hs] at h; simp at h
  | ok t =>
    rw [hs] at h
    simp only [except_ok_bind] at h
    refine ⟨(pySubscript_ok_inv hs).1, ?_⟩
    cases ht : pyDictGetD data "transient" (Json.bool false) with
    | error e => rw [ht] at h; simp at h
    | ok tr =>
      rw [ht] at h
      simp only [except_ok_bind] at h
      split at h
      · simp only [except_pure, Except.ok.injEq, Prod.mk.injEq] at h
        exact Or.inl (by rw [← h.1])
      · simp only [except_pure, Except.ok.injEq, Prod.mk.injEq] at h
        exact Or.inr ⟨t, by rw [← h.1]⟩

theorem handleToolResult_ok {st : OState} {data : Json} {st' : OState} {evs : List CEvent}
    (h : handleToolResult st data = .ok (st', evs)) :
    isDict data = true ∧ objHasKey data "tool_call_id" = true ∧ objHasKey data "results" = true ∧
      st' = { st with steps := updateResults st.steps (objGet data "tool_call_id") (objGet data "results") } ∧
      evs = [("tool_result", Json.obj [("tool_call_id", objGet data "tool_call_id"),
        ("results", objGet data "results")])] := by
  unfold handleToolResult at h
  cases hs : pySubscript data "tool_call_id" with
  | error e => rw [hs] at h; simp at h
  | ok tcid =>
    rw [hs] at h
    simp only [except_ok_bind] at h
    cases hr : pySubscript data "results" with
    | error e => rw [hr] at h; simp at h
    | ok res =>
      rw [hr] at h
      simp only [except_ok_bind, except_pure, Except.ok.injEq, Prod.mk.injEq] at h
      obtain ⟨hd, hk, hv⟩ := pySubscript_ok_inv hs
      obtain ⟨_, hk2, hv2⟩ := pySubscript_ok_inv hr
      rw [hv, hv2]
      exact ⟨hd, hk, hk2, h.1.symm, h.2.symm⟩

theorem handleToolCall_ok {st : OState} {data : Json} {st' : OState} {evs : List CEvent}
    (h : handleToolCall st data = .ok (st', evs)) :
    isDict data = true ∧
      ((pyTruthy (objGet data "tool_id") = false ∧ st' = st ∧ evs = []) ∨
       (pyTruthy (objGet data "tool_id") = true ∧
          (st.steps.find? (stepMatches (objGet data "tool_call_id"))).isSome ∧
          st' = { st with steps := if pyTruthy (objGetD data "params" (Json.obj [])) = true
              then updateParams st.steps (objGet data "tool_call_id") (objGetD data "params" (Json.obj []))
              else st.steps } ∧
          evs = []) ∨
       (pyTruthy (objGet data "tool_id") = true ∧
          st.steps.find? (stepMatches (objGet data "tool_call_id")) = none ∧
          st' = { st with steps := st.steps ++ [mkToolStep (objGet data "tool_call_id")
              (objGet data "tool_id") (objGetD data "params" (Json.obj []))] } ∧
          evs = [("tool_call", Json.obj [("tool_call_id", objGet data "tool_call_id"),
            ("tool_id", objGet data "tool_id"), ("params", objGetD data "params" (Json.obj []))])])) := by
  cases data with
  | obj fs =>
    refine ⟨rfl, ?_⟩
    rw [handleToolCall] at h
    simp only [pyDictGet_obj, pyDictGetD_obj, except_ok_bind] at h
    split at h
    · simp only [except_pure, Except.ok.injEq, Prod.mk.injEq] at h
      refine Or.inl ⟨?_, h.1.symm, h.2.symm⟩
      next hfalsy =>
        revert hfalsy
        cases pyTruthy (objGet (Json.obj fs) "tool_id") <;> simp
    · next htruthy =>
      have htid : pyTruthy (objGet (Json.obj fs) "tool_id") = true := by
        revert htruthy
        cases pyTruthy (objGet (Json.obj fs) "tool_id") <;> simp
      split at h
      · next hsome =>
        simp only [except_pure, Except.ok.injEq, Prod.mk.injEq] at h
        exact Or.inr (Or.inl ⟨htid, hsome, h.1.symm, h.2.symm⟩)
      · next hnone =>
        simp only [except_pure, Except.ok.injEq, Prod.mk.injEq] at h
        refine Or.inr (Or.inr ⟨htid, ?_, h.1.symm, h.2.symm⟩)
        exact Option.not_isSome_iff_eq_none.mp hnone
  | null => rw [handleToolCall] at h; simp [pyDictGet, pyDictGetD] at h
  | bool b => rw [handleToolCall] at h; simp [pyDictGet, pyDictGetD] at h
  | num n => rw [handleToolCall] at h; simp [pyDictGet, pyDictGetD] at h
  | str s => rw [handleToolCall] at h; simp [pyDictGet, pyDictGetD] at h
  | arr xs => rw [handleToolCall] at h; simp [pyDictGet, pyDictGetD] at h

theorem handleTextChunk_ok {st : OState} {data : Json} {st' : OState} {evs : List CEvent}
    (h : handleTextChunk st data = .ok (st', evs)) : st' = st := by
  unfold handleTextChunk at h
  cases hs : pySubscript data "text_chunk" with
  | error e => rw [hs] at h; simp at h
  | ok v =>
    rw [hs] at h
    simp only [except_ok_bind, except_pure, Except.ok.injEq, Prod.mk.injEq] at h
    exact h.1.symm

theorem handleMessageContent_ok {st : OState} {data : Json} {st' : OState} {evs : List CEvent}
    (h : handleMessageContent st data = .ok (st', evs)) : st' = st := by
  unfold handleMessageContent at h
  cases hs : pySubscript data "message_content" with
  | error e => rw [hs] at h; simp at h
  | ok v =>
    rw [hs] at h
    simp only [except_ok_bind, except_pure, Except.ok.injEq, Prod.mk.injEq] at h
    exact h.1.symm

theorem handleRound_ok {st : OState} {data : Json} {st' : OState} {evs : List CEvent}
    (h : handleRound st data = .ok (st', evs)) : st' = st := by
  unfold handleRound at h
  cases hs : pySubscript data "round" with
  | error e => rw [hs] at h; simp at h
  | ok rd =>
    rw [hs] at h
    simp only [except_ok_bind] at h
    cases hin : pyIn "response" rd with
    | error e => rw [hin] at h; simp at h
    | ok b =>
      rw [hin] at h
      simp only [except_ok_bind] at h
      split at h
      · cases hresp : pySubscript rd "response" with
        | error e => rw [hresp] at h; simp at h
        | ok resp =>
          rw [hresp] at h
          simp only [except_ok_bind] at h
          cases hin2 : pyIn "message" resp with
          | error e => rw [hin2] at h; simp at h
          | ok b2 =>
            rw [hin2] at h
            simp only [except_ok_bind] at h
            split at h
            · cases hmsg : pySubscript resp "message" with
              | error e => rw [hmsg] at h; simp at h
              | ok msg =>
                rw [hmsg] at h
                simp only [except_ok_bind, except_pure, Except.ok.injEq, Prod.mk.injEq] at h
                exact h.1.symm
            · simp only [except_pure, Except.ok.injEq, Prod.mk.injEq] at h
              exact h.1.symm
      · simp only [except_pure, Except.ok.injEq, Prod.mk.injEq] at h
        exact h.1.symm

theorem processFrame_route {st : OState} {raw : Json} (h1 : isDict raw = true)
    (h2 : isDict (unwrapData raw) = true) :
    processFrame st raw =
      if objHasKey raw "error" = true then handleUpstreamError st raw
      else if objHasKey (unwrapData raw) "conversation_id" = true then
        handleConversationStarted st (unwrapData raw)
      else if objHasKey (unwrapData raw) "reasoning" = true then handleReasoning st (unwrapData raw)
      else if (objHasKey (unwrapData raw) "results" && objHasKey (unwrapData raw) "tool_call_id") = true then
        handleToolResult st (unwrapData raw)
      else if objHasKey (unwrapData raw) "tool_call_id" = true then handleToolCall st (unwrapData raw)
      else if objHasKey (unwrapData raw) "text_chunk" = true then handleTextChunk st (unwrapData raw)
      else if objHasKey (unwrapData raw) "message_content" = true then
        handleMessageContent st (unwrapData raw)
      else if objHasKey (unwrapData raw) "round" = true then handleRound st (unwrapData raw)
      else .ok (st, []) := by
  cases raw with
  | obj fs =>
    have hun : unwrapData (Json.obj fs) = objGetD (Json.obj fs) "data" (Json.obj fs) := rfl
    rw [hun] at h2 ⊢
    cases hdata : objGetD (Json.obj fs) "data" (Json.obj fs) with
    | obj gs =>
      simp only [processFrame, pyDictGetD_obj, except_ok_bind, hdata, pyIn_obj, pyAnd_ok_ok,
        except_pure]
    | null => rw [hdata] at h2; simp [isDict] at h2
    | bool b => rw [hdata] at h2; simp [isDict] at h2
    | num n => rw [hdata] at h2; simp [isDict] at h2
    | str s => rw [hdata] at h2; simp [isDict] at h2
    | arr xs => rw [hdata] at h2; simp [isDict] at h2
  | null => simp [isDict] at h1
  | bool b => simp [isDict] at h1
  | num n => simp [isDict] at h1
  | str s => simp [isDict] at h1
  | arr xs => simp [isDict] at h1

theorem processFrame_nondict_data {st : OState} {raw : Json} {st' : OState} {evs : List CEvent}
    (h1 : isDict raw = true) (h2 : isDict (unwrapData raw) = false)
    (h : processFrame st raw = .ok (st', evs)) : st'.steps = st.steps := by
  cases raw with
  | obj fs =>
    have hun : unwrapData (Json.obj fs) = objGetD (Json.obj fs) "data" (Json.obj fs) := rfl
    rw [hun] at h2
    simp only [processFrame, pyDictGetD_obj, except_ok_bind] at h
    cases hdata : objGetD (Json.obj fs) "data" (Json.obj fs) with
    | obj gs => rw [hdata] at h2; simp [isDict] at h2
    | null =>
      rw [hdata] at h
      simp only [pyIn_obj, except_ok_bind] at h
      split at h
      · rw [handleUpstreamError_ok h]
      · simp [pyIn] at h
    | bool b =>
      rw [hdata] at h
      simp only [pyIn_obj, except_ok_bind] at h
      split at h
      · rw [handleUpstreamError_ok h]
      · simp [pyIn] at h
    | num n =>
      rw [hdata] at h
      simp only [pyIn_obj, except_ok_bind] at h
      split at h
      · rw [handleUpstreamError_ok h]
      · simp [pyIn] at h
    | str s =>
      rw [hdata] at h
      simp only [pyIn_obj, pyIn, except_ok_bind, pyAnd_ok_ok] at h
      split at h
      · rw [handleUpstreamError_ok h]
      · split at h
        · rw [handleConversationStarted_ok h]
        · split at h
          · obtain ⟨hd, _⟩ := handleReasoning_ok h
            simp [isDict] at hd
          · split at h
            · obtain ⟨hd, _, _⟩ := handleToolResult_ok h
              simp [isDict] at hd
            · split at h
              · obtain ⟨hd, _⟩ := handleToolCall_ok h
                simp [isDict] at hd
              · split at h
                · rw [handleTextChunk_ok h]
                · split at h
                  · rw [handleMessageContent_ok h]
                  · split at h
                    · rw [handleRound_ok h]
                    · simp only [except_pure, Except.ok.injEq, Prod.mk.injEq] at h
                      rw [← h.1]
    | arr xs =>
      rw [hdata] at h
      simp only [pyIn_obj, pyIn, except_ok_bind, pyAnd_ok_ok] at h
      split at h
      · rw [handleUpstreamError_ok h]
      · split at h
        · rw [handleConversationStarted_ok h]
        · split at h
          · obtain ⟨hd, _⟩ := handleReasoning_ok h
            simp [isDict] at hd
          · split at h
            · obtain ⟨hd, _, _⟩ := handleToolResult_ok h
              simp [isDict] at hd
            · split at h
              · obtain ⟨hd, _⟩ := handleToolCall_ok h
                simp [isDict] at hd
              · split at h
                · rw [handleTextChunk_ok h]
                · split at h
                  · rw [handleMessageContent_ok h]
                  · split at h
                    · rw [handleRound_ok h]
                    · simp only [except_pure, Except.ok.injEq, Prod.mk.injEq] at h
                      rw [← h.1]
  | null => simp [isDict] at h1
  | bool b => simp [isDict] at h1
  | num n => simp [isDict] at h1
  | str s => simp [isDict] at h1
  | arr xs => simp [isDict] at h1

theorem handleToolResult_spec {st : OState} {data : Json}
    (h1 : objHasKey data "tool_call_id" = true) (h2 : objHasKey data "results" = true) :
    handleToolResult st data =
      .ok ({ st with steps := updateResults st.steps (objGet data "tool_call_id") (objGet data "results") },
        [("tool_result", Json.obj [("tool_call_id", objGet data "tool_call_id"),
          ("results", objGet data "results")])]) := by
  unfold handleToolResult
  rw [pySubscript_of_hasKey h1]
  simp only [except_ok_bind]
  rw [pySubscript_of_hasKey h2]
  simp only [except_ok_bind, except_pure]

theorem handleReasoning_transient_spec {st : OState} {data : Json}
    (hd : isDict data = true) (hk : objHasKey data "reasoning" = true)
    (ht : pyTruthy (objGetD data "transient" (Json.bool false)) = true) :
    handleReasoning st data = .ok (st, []) := by
  cases data with
  | obj fs =>
    unfold handleReasoning
    rw [pySubscript_of_hasKey hk]
    simp only [except_ok_bind, pyDictGetD_obj, ht, if_true, except_pure]
  | null => simp [isDict] at hd
  | bool b => simp [isDict] at hd
  | num n => simp [isDict] at hd
  | str s => simp [isDict] at hd
  | arr xs => simp [isDict] at hd

theorem handleToolCall_new_spec {st : OState} {data : Json} (hd : isDict data = true)
    (htid : pyTruthy (objGet data "tool_id") = true)
    (hnone : st.steps.find? (stepMatches (objGet data "tool_call_id")) = none) :
    handleToolCall st data =
      .ok ({ st with steps := st.steps ++ [mkToolStep (objGet data "tool_call_id")
          (objGet data "tool_id") (objGetD data "params" (Json.obj []))] },
        [("tool_call", Json.obj [("tool_call_id", objGet data "tool_call_id"),
          ("tool_id", objGet data "tool_id"), ("params", objGetD data "params" (Json.obj []))])]) := by
  cases data with
  | obj fs =>
    unfold handleToolCall
    simp only [pyDictGet_obj, pyDictGetD_obj, except_ok_bind, htid, hnone, Bool.not_true,
      Option.isSome_none, Bool.false_eq_true, if_false, except_pure]
  | null => simp [isDict] at hd
  | bool b => simp [isDict] at hd
  | num n => simp [isDict] at hd
  | str s => simp [isDict] at hd
  | arr xs => simp [isDict] at hd

theorem handleToolCall_existing_spec {st : OState} {data : Json} (hd : isDict data = true)
    (htid : pyTruthy (objGet data "tool_id") = true)
    (hsome : (st.steps.find? (stepMatches (objGet data "tool_call_id"))).isSome = true) :
    handleToolCall st data =
      .ok ({ st with steps := if pyTruthy (objGetD data "params" (Json.obj [])) = true
          then updateParams st.steps (objGet data "tool_call_id") (objGetD data "params" (Json.obj []))
          else st.steps }, []) := by
  cases data with
  | obj fs =>
    unfold handleToolCall
    simp only [pyDictGet_obj, pyDictGetD_obj, except_ok_bind, htid, hsome, Bool.not_true,
      Bool.false_eq_true, if_false, if_true, except_pure]
  | null => simp [isDict] at hd
  | bool b => simp [isDict] at hd
  | num n => simp [isDict] at hd
  | str s => simp [isDict] at hd
  | arr xs => simp [isDict] at hd

/-- C2: a decoded payload (top level and unwrapped `data` level both JSON
objects) that carries both a `results` key and a `tool_call_id` key, and
matches no higher-precedence rule (no top-level `error`, no
`conversation_id`, no `reasoning`), is classified as a tool result: the
handler emits exactly one `tool_result` event — never a `tool_call` — and
applies the tool-result ledger update. -/
theorem c2_tool_result_precedence (st : OState) (raw : Json)
    (h1 : isDict raw = true) (h2 : isDict (unwrapData raw) = true)
    (h3 : objHasKey raw "error" = false)
    (h4 : objHasKey (unwrapData raw) "conversation_id" = false)
    (h5 : objHasKey (unwrapData raw) "reasoning" = false)
    (h6 : objHasKey (unwrapData raw) "results" = true)
    (h7 : objHasKey (unwrapData raw) "tool_call_id" = true) :
    processFrame st raw =
      .ok ({ st with steps := updateResults st.steps (frameCallId raw) (frameResults raw) },
        [("tool_result", Json.obj [("tool_call_id", frameCallId raw),
          ("results", frameResults raw)])]) := by
  rw [processFrame_route h1 h2]
  simp only [h3, h4, h5, h6, h7, Bool.false_eq_true, if_false, Bool.and_self, if_true]
  rw [handleToolResult_spec h7 h6]
  simp only [frameCallId, frameResults]

/-- C2 witness: the concrete tool-result frame for call `t1` is classified
as `tool_result`. -/
theorem c2_tool_result_precedence_witness :
    processFrame initState searchToolResultFrame =
      .ok ({ initState with
          steps := updateResults initState.steps (frameCallId searchToolResultFrame)
              (frameResults searchToolResultFrame) },
        [("tool_result", Json.obj [("tool_call_id", frameCallId searchToolResultFrame),
          ("results", frameResults searchToolResultFrame)])]) :=
  c2_tool_result_precedence initState searchToolResultFrame rfl rfl rfl rfl rfl rfl rfl

/-- C6: a reasoning frame whose payload marks itself transient is swallowed
whole: for every orchestrator state, processing it leaves the state (and in
particular the StepLedger) unchanged and emits no client event, so no
transient reasoning ever reaches the ledger or the client. -/
theorem c6_transient_reasoning_swallowed (st : OState) (raw : Json)
    (h1 : isDict raw = true) (h2 : isDict (unwrapData raw) = true)
    (h3 : objHasKey raw "error" = false)
    (h4 : objHasKey (unwrapData raw) "conversation_id" = false)
    (h5 : objHasKey (unwrapData raw) "reasoning" = true)
    (h6 : pyTruthy (objGetD (unwrapData raw) "transient" (Json.bool false)) = true) :
    processFrame st raw = .ok (st, []) := by
  rw [processFrame_route h1 h2]
  simp only [h3, h4, h5, Bool.false_eq_true, if_false, if_true]
  exact handleReasoning_transient_spec h2 h5 h6

/-- C6 witness: the concrete transient reasoning frame is swallowed from
the initial state. -/
theorem c6_transient_reasoning_swallowed_witness :
    processFrame initState transientReasoningFrame = .ok (initState, []) :=
  c6_transient_reasoning_swallowed initState transientReasoningFrame rfl rfl rfl rfl rfl rfl

/-- C9 (amended): a tool-call frame carrying a truthy `tool_id` and empty
(falsy) `params`, arriving when no ledger step with its call id exists, is
not dropped: a fresh step with those params and empty results is appended
to the ledger and a `tool_call` client event is emitted. Only frames with
a falsy `tool_id` are dropped outright; empty `params` merely fails to
update an existing step. -/
theorem c9_amended_empty_params_tool_call (st : OState) (raw : Json)
    (h : toolCallFrame raw = true)
    (_hp : pyTruthy (frameParams raw) = false)
    (hnone : st.steps.find? (stepMatches (frameCallId raw)) = none) :
    processFrame st raw =
      .ok ({ st with steps := st.steps ++ [mkToolStep (frameCallId raw) (frameToolId raw) (frameParams raw)] },
        [("tool_call", Json.obj [("tool_call_id", frameCallId raw), ("tool_id", frameToolId raw),
          ("params", frameParams raw)])]) := by
  simp only [toolCallFrame, plainObjFrame, Bool.and_eq_true, Bool.not_eq_true'] at h
  obtain ⟨⟨⟨⟨⟨⟨⟨hd1, hd2⟩, herr⟩, hconv⟩, hreas⟩, hres⟩, htcid⟩, htid⟩ := h
  simp only [frameCallId] at hnone
  rw [processFrame_route hd1 hd2]
  simp only [herr, hconv, hreas, hres, htcid, Bool.false_eq_true, if_false, Bool.false_and,
    if_true]
  rw [handleToolCall_new_spec hd2 htid hnone]
  simp only [frameCallId, frameToolId, frameParams]

/-- C9 (amended) witness: the concrete empty-params tool-call frame is
appended from the initial state and emits its `tool_call` event. -/
theorem c9_amended_empty_params_tool_call_witness :
    processFrame initState emptyParamsToolCallFrame =
      .ok ({ initState with
          steps := initState.steps ++ [mkToolStep (frameCallId emptyParamsToolCallFrame)
              (frameToolId emptyParamsToolCallFrame) (frameParams emptyParamsToolCallFrame)] },
        [("tool_call", Json.obj [("tool_call_id", frameCallId emptyParamsToolCallFrame),
          ("tool_id", frameToolId emptyParamsToolCallFrame),
          ("params", frameParams emptyParamsToolCallFrame)])]) :=
  c9_amended_empty_params_tool_call initState emptyParamsToolCallFrame rfl rfl rfl

/-- C8: when the upstream read ends with a transport-level failure (timeout,
connection error, or any other exception) instead of a graceful end, the
client receives exactly the frame-derived events produced before the
failure followed by exactly one `error` event, and the response stream then
ends: nothing — in particular no `completion` event and no further
frame-derived event — follows the error, and no retry occurs (the whole
output is a single pass over the frames read before the failure). -/
theorem c8_transport_failure_single_error (frames : List Json) (ending : UpstreamEnd)
    (h : ending ≠ UpstreamEnd.graceful) :
    ∃ d, streamRunWith frames ending = (runFrames initState frames).1 ++ [("error", d)] := by
  cases hr : (runFrames initState frames).2 with
  | error e =>
    exact ⟨Json.obj [("error", Json.str ("Unexpected error: " ++ e))],
      by simp only [streamRunWith, hr]⟩
  | ok st =>
    cases ending with
    | graceful => exact absurd rfl h
    | timeout =>
      exact ⟨Json.obj [("error", Json.str "Request timeout")], by simp only [streamRunWith, hr]⟩
    | connError m =>
      exact ⟨Json.obj [("error", Json.str ("Connection error: " ++ m))],
        by simp only [streamRunWith, hr]⟩
    | otherExn m =>
      exact ⟨Json.obj [("error", Json.str ("Unexpected error: " ++ m))],
        by simp only [streamRunWith, hr]⟩

/-- C8 witness: a timeout with no frames read yields exactly one error
event and nothing else. -/
theorem c8_transport_failure_single_error_witness :
    ∃ d, streamRunWith [] UpstreamEnd.timeout = (runFrames initState []).1 ++ [("error", d)] :=
  c8_transport_failure_single_error [] UpstreamEnd.timeout (by decide)

theorem bool_not_true {b : Bool} (h : ¬b = true) : b = false := by
  cases b
  · rfl
  · exact absurd rfl h

theorem find?_setKeyFields_ne (fs : List (String × Json)) {k k' : String} (v : Json)
    (h : k' ≠ k) :
    (setKeyFields fs k v).find? (fun p => decide (p.1 = k')) =
      fs.find? (fun p => decide (p.1 = k')) := by
  induction fs with
  | nil => simp [setKeyFields, List.find?, Ne.symm h]
  | cons p rest ih =>
    obtain ⟨k0, v0⟩ := p
    by_cases hk : k0 = k
    · subst hk
      simp only [setKeyFields, if_true]
      rw [List.find?, List.find?]
      have : decide (k0 = k') = false := by simp [Ne.symm h]
      simp [this]
    · simp only [setKeyFields, hk, if_false]
      rw [List.find?, List.find?]
      cases hd : decide (k0 = k')
      · simp [hd, ih]
      · simp [hd]

theorem find?_setKeyFields_self (fs : List (String × Json)) (k : String) (v : Json) :
    (setKeyFields fs k v).find? (fun p => decide (p.1 = k)) = some (k, v) := by
  induction fs with
  | nil => simp [setKeyFields, List.find?]
  | cons p rest ih =>
    obtain ⟨k0, v0⟩ := p
    by_cases hk : k0 = k
    · subst hk
      simp [setKeyFields, List.find?]
    · simp only [setKeyFields, hk, if_false]
      rw [List.find?]
      simp [hk, ih]

theorem objGetD_setKey_ne (j : Json) {k k' : String} (v d : Json) (h : k' ≠ k) :
    objGetD (setKey j k v) k' d = objGetD j k' d := by
  cases j with
  | obj fs => simp only [setKey, objGetD, find?_setKeyFields_ne fs v h]
  | null => rfl
  | bool b => rfl
  | num n => rfl
  | str s => rfl
  | arr xs => rfl

theorem objGet_setKey_self (fs : List (String × Json)) (k : String) (v : Json) :
    objGet (setKey (Json.obj fs) k v) k = v := by
  simp only [setKey, objGet, objGetD, find?_setKeyFields_self]

theorem stepMatches_setKey (cid s : Json) {k : String} (v : Json) (h : k ≠ "tool_call_id") :
    stepMatches cid (setKey s k v) = stepMatches cid s := by
  unfold stepMatches objGet
  rw [objGetD_setKey_ne s v Json.null (Ne.symm h)]

theorem objGet_ne_null_obj {s : Json} {k : String} (h : objGet s k ≠ Json.null) :
    ∃ fs, s = Json.obj fs := by
  cases s with
  | obj fs => exact ⟨fs, rfl⟩
  | null => exact absurd rfl h
  | bool b => exact absurd rfl h
  | num n => exact absurd rfl h
  | str s => exact absurd rfl h
  | arr xs => exact absurd rfl h

theorem stepMatches_mkToolStep (cid cid' tid p : Json) :
    stepMatches cid (mkToolStep cid' tid p) = Json.beq cid' cid := rfl

theorem objGet_mkToolStep_params (cid tid p : Json) :
    objGet (mkToolStep cid tid p) "params" = p := rfl

theorem objGet_mkToolStep_results (cid tid p : Json) :
    objGet (mkToolStep cid tid p) "results" = Json.arr [] := rfl

theorem stepMatches_reasoningStep_false {cid : Json} (t : Json) (h : cid ≠ Json.null) :
    stepMatches cid (reasoningStep t) = false := by
  have : stepMatches cid (reasoningStep t) = Json.beq Json.null cid := rfl
  rw [this]
  exact bool_not_true (fun hb => h ((Json.beq_iff Json.null cid).mp hb).symm)

theorem stepMatches_self {cid : Json} {s : Json} (h : objGet s "tool_call_id" = cid) :
    stepMatches cid s = true := by
  unfold stepMatches
  rw [h]
  exact (Json.beq_iff cid cid).mpr rfl

theorem stepMatches_true_iff {cid s : Json} :
    stepMatches cid s = true ↔ objGet s "tool_call_id" = cid := stepMatches_iff

theorem find?_append_left {α : Type} {p : α → Bool} {l l2 : List α}
    (h : (l.find? p).isSome = true) : (l ++ l2).find? p = l.find? p := by
  induction l with
  | nil => simp [List.find?] at h
  | cons x xs ih =>
    cases hx : p x
    · rw [List.cons_append, List.find?_cons_of_neg _ (by simp [hx]),
        List.find?_cons_of_neg _ (by simp [hx])]
      rw [List.find?_cons_of_neg _ (by simp [hx])] at h
      exact ih h
    · rw [List.cons_append, List.find?_cons_of_pos _ hx, List.find?_cons_of_pos _ hx]

theorem find?_append_right {α : Type} {p : α → Bool} {l l2 : List α}
    (h : l.find? p = none) : (l ++ l2).find? p = l2.find? p := by
  induction l with
  | nil => simp
  | cons x xs ih =>
    cases hx : p x
    · rw [List.find?_cons_of_neg _ (by simp [hx])] at h
      rw [List.cons_append, List.find?_cons_of_neg _ (by simp [hx])]
      exact ih h
    · rw [List.find?_cons_of_pos _ hx] at h
      exact absurd h (by simp)

theorem countMatches_append (l : List Json) (s cid : Json) :
    countMatches (l ++ [s]) cid =
      countMatches l cid + (if stepMatches cid s then 1 else 0) := by
  simp only [countMatches, List.filter_append, List.length_append]
  cases hs : stepMatches cid s <;> simp [List.filter, hs]

theorem countMatches_updateResults (l : List Json) (cid' res cid : Json) :
    countMatches (updateResults l cid' res) cid = countMatches l cid := by
  induction l with
  | nil => rfl
  | cons s ss ih =>
    rw [updateResults]
    split
    · simp only [countMatches, List.filter]
      rw [stepMatches_setKey cid s res (by decide)]
      cases stepMatches cid s <;> simp
    · simp only [countMatches, List.filter]
      cases hm : stepMatches cid s
      · simpa [countMatches] using ih
      · simpa [countMatches] using ih

theorem countMatches_updateParams (l : List Json) (cid' p cid : Json) :
    countMatches (updateParams l cid' p) cid = countMatches l cid := by
  induction l with
  | nil => rfl
  | cons s ss ih =>
    rw [updateParams]
    split
    · simp only [countMatches, List.filter]
      rw [stepMatches_setKey cid s p (by decide)]
      cases stepMatches cid s <;> simp
    · simp only [countMatches, List.filter]
      cases hm : stepMatches cid s
      · simpa [countMatches] using ih
      · simpa [countMatches] using ih

theorem stepFor_updateResults_isSome (l : List Json) (cid' res cid : Json) :
    (stepFor (updateResults l cid' res) cid).isSome = (stepFor l cid).isSome := by
  induction l with
  | nil => rfl
  | cons s ss ih =>
    rw [updateResults]
    split
    · unfold stepFor
      rw [List.find?]
      rw [stepMatches_setKey cid s res (by decide)]
      rw [List.find?]
      cases stepMatches cid s <;> simp [stepFor] at ih ⊢
    · unfold stepFor
      rw [List.find?, List.find?]
      cases stepMatches cid s <;> simp [stepFor] at ih ⊢
      exact ih

theorem stepFor_updateParams_isSome (l : List Json) (cid' p cid : Json) :
    (stepFor (updateParams l cid' p) cid).isSome = (stepFor l cid).isSome := by
  induction l with
  | nil => rfl
  | cons s ss ih =>
    rw [updateParams]
    split
    · unfold stepFor
      rw [List.find?]
      rw [stepMatches_setKey cid s p (by decide)]
      rw [List.find?]
      cases stepMatches cid s <;> simp [stepFor] at ih ⊢
    · unfold stepFor
      rw [List.find?, List.find?]
      cases stepMatches cid s <;> simp [stepFor] at ih ⊢
      exact ih

theorem stepFor_cons_pos {cid s : Json} {rest : List Json} (h : stepMatches cid s = true) :
    stepFor (s :: rest) cid = some s := by
  unfold stepFor
  exact List.find?_cons_of_pos _ h

theorem stepFor_cons_neg {cid s : Json} {rest : List Json} (h : stepMatches cid s = false) :
    stepFor (s :: rest) cid = stepFor rest cid := by
  unfold stepFor
  exact List.find?_cons_of_neg _ (by simp [h])

theorem objGet_results_setKey_params (s p : Json) :
    objGet (setKey s "params" p) "results" = objGet s "results" :=
  objGetD_setKey_ne s p Json.null (by decide)

theorem objGet_params_setKey_results (s res : Json) :
    objGet (setKey s "results" res) "params" = objGet s "params" :=
  objGetD_setKey_ne s res Json.null (by decide)

theorem resultsView_updateParams (l : List Json) (cid' p cid : Json) :
    resultsView (updateParams l cid' p) cid = resultsView l cid := by
  induction l with
  | nil => rfl
  | cons s ss ih =>
    rw [updateParams]
    split
    · cases hm : stepMatches cid s
      · unfold resultsView
        rw [stepFor_cons_neg (by rw [stepMatches_setKey cid s p (by decide)]; exact hm),
          stepFor_cons_neg hm]
      · unfold resultsView
        rw [stepFor_cons_pos (by rw [stepMatches_setKey cid s p (by decide)]; exact hm),
          stepFor_cons_pos hm]
        simp only [Option.map_some']
        rw [objGet_results_setKey_params]
    · cases hm : stepMatches cid s
      · unfold resultsView
        rw [stepFor_cons_neg hm, stepFor_cons_neg hm]
        exact ih
      · unfold resultsView
        rw [stepFor_cons_pos hm, stepFor_cons_pos hm]

theorem resultsView_updateResults_ne (l : List Json) {cid' cid : Json} (res : Json)
    (h : cid' ≠ cid) :
    resultsView (updateResults l cid' res) cid = resultsView l cid := by
  induction l with
  | nil => rfl
  | cons s ss ih =>
    rw [updateResults]
    split
    · next hm' =>
        have hms : stepMatches cid s = false := by
          cases hmc : stepMatches cid s
          · rfl
          · exact absurd ((stepMatches_true_iff.mp hm').symm.trans (stepMatches_true_iff.mp hmc)) h
        unfold resultsView
        rw [stepFor_cons_neg (by rw [stepMatches_setKey cid s res (by decide)]; exact hms),
          stepFor_cons_neg hms]
    · cases hm : stepMatches cid s
      · unfold resultsView
        rw [stepFor_cons_neg hm, stepFor_cons_neg hm]
        exact ih
      · unfold resultsView
        rw [stepFor_cons_pos hm, stepFor_cons_pos hm]

theorem resultsView_updateResults_found (l : List Json) {cid : Json} (res : Json)
    (hnull : cid ≠ Json.null) (hs : (stepFor l cid).isSome = true) :
    resultsView (updateResults l cid res) cid = some res := by
  induction l with
  | nil => simp [stepFor, List.find?] at hs
  | cons s ss ih =>
    rw [updateResults]
    split
    · next hm' =>
        obtain ⟨fs, rfl⟩ : ∃ fs, s = Json.obj fs := by
          apply objGet_ne_null_obj
          rw [stepMatches_true_iff.mp hm']
          exact hnull
        unfold resultsView
        rw [stepFor_cons_pos (by rw [stepMatches_setKey cid _ res (by decide)]; exact hm')]
        simp only [Option.map_some']
        rw [objGet_setKey_self]
    · next hm' =>
        have hms : stepMatches cid s = false := bool_not_true hm'
        have hs' : (stepFor ss cid).isSome = true := by
          rw [stepFor_cons_neg hms] at hs
          exact hs
        unfold resultsView
        rw [stepFor_cons_neg hms]
        exact ih hs'

theorem paramsView_updateResults (l : List Json) (cid' res cid : Json) :
    paramsView (updateResults l cid' res) cid = paramsView l cid := by
  induction l with
  | nil => rfl
  | cons s ss ih =>
    rw [updateResults]
    split
    · cases hm : stepMatches cid s
      · unfold paramsView
        rw [stepFor_cons_neg (by rw [stepMatches_setKey cid s res (by decide)]; exact hm),
          stepFor_cons_neg hm]
      · unfold paramsView
        rw [stepFor_cons_pos (by rw [stepMatches_setKey cid s res (by decide)]; exact hm),
          stepFor_cons_pos hm]
        simp only [Option.map_some']
        rw [objGet_params_setKey_results]
    · cases hm : stepMatches cid s
      · unfold paramsView
        rw [stepFor_cons_neg hm, stepFor_cons_neg hm]
        exact ih
      · unfold paramsView
        rw [stepFor_cons_pos hm, stepFor_cons_pos hm]

theorem paramsView_updateParams_ne (l : List Json) {cid' cid : Json} (p : Json)
    (h : cid' ≠ cid) :
    paramsView (updateParams l cid' p) cid = paramsView l cid := by
  induction l with
  | nil => rfl
  | cons s ss ih =>
    rw [updateParams]
    split
    · next hm' =>
        have hms : stepMatches cid s = false := by
          cases hmc : stepMatches cid s
          · rfl
          · exact absurd ((stepMatches_true_iff.mp hm').symm.trans (stepMatches_true_iff.mp hmc)) h
        unfold paramsView
        rw [stepFor_cons_neg (by rw [stepMatches_setKey cid s p (by decide)]; exact hms),
          stepFor_cons_neg hms]
    · cases hm : stepMatches cid s
      · unfold paramsView
        rw [stepFor_cons_neg hm, stepFor_cons_neg hm]
        exact ih
      · unfold paramsView
        rw [stepFor_cons_pos hm, stepFor_cons_pos hm]

theorem paramsView_updateParams_found (l : List Json) {cid : Json} (p : Json)
    (hnull : cid ≠ Json.null) (hs : (stepFor l cid).isSome = true) :
    paramsView (updateParams l cid p) cid = some p := by
  induction l with
  | nil => simp [stepFor, List.find?] at hs
  | cons s ss ih =>
    rw [updateParams]
    split
    · next hm' =>
        obtain ⟨fs, rfl⟩ : ∃ fs, s = Json.obj fs := by
          apply objGet_ne_null_obj
          rw [stepMatches_true_iff.mp hm']
          exact hnull
        unfold paramsView
        rw [stepFor_cons_pos (by rw [stepMatches_setKey cid _ p (by decide)]; exact hm')]
        simp only [Option.map_some']
        rw [objGet_setKey_self]
    · next hm' =>
        have hms : stepMatches cid s = false := bool_not_true hm'
        have hs' : (stepFor ss cid).isSome = true := by
          rw [stepFor_cons_neg hms] at hs
          exact hs
        unfold paramsView
        rw [stepFor_cons_neg hms]
        exact ih hs'

theorem stepFor_none_count (l : List Json) {cid : Json} (h : stepFor l cid = none) :
    countMatches l cid = 0 := by
  induction l with
  | nil => rfl
  | cons s ss ih =>
    cases hm : stepMatches cid s
    · rw [stepFor_cons_neg hm] at h
      simp only [countMatches, List.filter, hm]
      exact ih h
    · rw [stepFor_cons_pos hm] at h
      exact absurd h (by simp)

theorem stepFor_isSome_count_pos (l : List Json) {cid : Json}
    (h : (stepFor l cid).isSome = true) : 0 < countMatches l cid := by
  induction l with
  | nil => simp [stepFor, List.find?] at h
  | cons s ss ih =>
    cases hm : stepMatches cid s
    · rw [stepFor_cons_neg hm] at h
      simp only [countMatches, List.filter, hm]
      exact ih h
    · simp [countMatches, List.filter, hm]

theorem processFrame_toolResult {st : OState} {raw : Json} (h : toolResultFrame raw = true) :
    processFrame st raw =
      .ok ({ st with steps := updateResults st.steps (frameCallId raw) (frameResults raw) },
        [("tool_result", Json.obj [("tool_call_id", frameCallId raw),
          ("results", frameResults raw)])]) := by
  simp only [toolResultFrame, plainObjFrame, Bool.and_eq_true, Bool.not_eq_true'] at h
  obtain ⟨⟨⟨⟨⟨⟨hd1, hd2⟩, herr⟩, hconv⟩, hreas⟩, hres⟩, htcid⟩ := h
  rw [processFrame_route hd1 hd2]
  simp only [herr, hconv, hreas, hres, htcid, Bool.false_eq_true, if_false, Bool.and_self,
    if_true]
  rw [handleToolResult_spec htcid hres]
  simp only [frameCallId, frameResults]

theorem processFrame_toolCall_new {st : OState} {raw : Json}
    (h : toolCallFrame raw = true)
    (hnone : st.steps.find? (stepMatches (frameCallId raw)) = none) :
    processFrame st raw =
      .ok ({ st with steps := st.steps ++ [mkToolStep (frameCallId raw) (frameToolId raw) (frameParams raw)] },
        [("tool_call", Json.obj [("tool_call_id", frameCallId raw), ("tool_id", frameToolId raw),
          ("params", frameParams raw)])]) := by
  simp only [toolCallFrame, plainObjFrame, Bool.and_eq_true, Bool.not_eq_true'] at h
  obtain ⟨⟨⟨⟨⟨⟨⟨hd1, hd2⟩, herr⟩, hconv⟩, hreas⟩, hres⟩, htcid⟩, htid⟩ := h
  simp only [frameCallId] at hnone
  rw [processFrame_route hd1 hd2]
  simp only [herr, hconv, hreas, hres, htcid, Bool.false_eq_true, if_false, Bool.false_and,
    if_true]
  rw [handleToolCall_new_spec hd2 htid hnone]
  simp only [frameCallId, frameToolId, frameParams]

theorem processFrame_toolCall_existing {st : OState} {raw : Json}
    (h : toolCallFrame raw = true)
    (hsome : (st.steps.find? (stepMatches (frameCallId raw))).isSome = true) :
    processFrame st raw =
      .ok ({ st with steps := if pyTruthy (frameParams raw) = true
          then updateParams st.steps (frameCallId raw) (frameParams raw) else st.steps }, []) := by
  simp only [toolCallFrame, plainObjFrame, Bool.and_eq_true, Bool.not_eq_true'] at h
  obtain ⟨⟨⟨⟨⟨⟨⟨hd1, hd2⟩, herr⟩, hconv⟩, hreas⟩, hres⟩, htcid⟩, htid⟩ := h
  simp only [frameCallId] at hsome
  rw [processFrame_route hd1 hd2]
  simp only [herr, hconv, hreas, hres, htcid, Bool.false_eq_true, if_false, Bool.false_and,
    if_true]
  rw [handleToolCall_existing_spec hd2 htid hsome]
  simp only [frameCallId, frameParams]

theorem processFrame_steps_shape {st : OState} {raw : Json} {st' : OState} {evs : List CEvent}
    (h : processFrame st raw = .ok (st', evs)) :
    st'.steps = st.steps
    ∨ (∃ t, st'.steps = st.steps ++ [reasoningStep t])
    ∨ (toolResultFrame raw = true ∧
        st'.steps = updateResults st.steps (frameCallId raw) (frameResults raw))
    ∨ (toolCallFrame raw = true ∧ (st.steps.find? (stepMatches (frameCallId raw))).isSome ∧
        st'.steps = (if pyTruthy (frameParams raw) = true
          then updateParams st.steps (frameCallId raw) (frameParams raw) else st.steps))
    ∨ (toolCallFrame raw = true ∧ st.steps.find? (stepMatches (frameCallId raw)) = none ∧
        st'.steps = st.steps ++ [mkToolStep (frameCallId raw) (frameToolId raw) (frameParams raw)]) := by
  by_cases h1 : isDict raw = true
  · by_cases h2 : isDict (unwrapData raw) = true
    · rw [processFrame_route h1 h2] at h
      split at h
      · left
        rw [handleUpstreamError_ok h]
      · next herr =>
        split at h
        · left
          exact handleConversationStarted_ok h
        · next hconv =>
          split at h
          · obtain ⟨_, hre⟩ := handleReasoning_ok h
            rcases hre with hsame | ⟨t, ht⟩
            · left; exact hsame
            · right; left; exact ⟨t, ht⟩
          · next hreas =>
            split at h
            · next hand =>
              obtain ⟨hd, hk1, hk2, hst, _⟩ := handleToolResult_ok h
              rw [Bool.and_eq_true] at hand
              right; right; left
              refine ⟨?_, ?_⟩
              · simp only [toolResultFrame, plainObjFrame]
                rw [h1, h2, bool_not_true herr, bool_not_true hconv, bool_not_true hreas,
                  hand.1, hand.2]
                rfl
              · rw [hst]
                simp only [frameCallId, frameResults]
            · next hand =>
              split at h
              · next htcid =>
                obtain ⟨hd, hcase⟩ := handleToolCall_ok h
                have hres : objHasKey (unwrapData raw) "results" = false := by
                  have hand' := bool_not_true hand
                  revert hand' htcid
                  cases objHasKey (unwrapData raw) "results" <;>
                    cases objHasKey (unwrapData raw) "tool_call_id" <;> simp
                rcases hcase with ⟨htid, hst, _⟩ | ⟨htid, hsome, hst, _⟩ | ⟨htid, hnone, hst, _⟩
                · left; rw [hst]
                · have htcf : toolCallFrame raw = true := by
                    simp only [toolCallFrame, plainObjFrame]
                    rw [h1, h2, bool_not_true herr, bool_not_true hconv, bool_not_true hreas,
                      hres, htcid, htid]
                    rfl
                  right; right; right; left
                  refine ⟨htcf, ?_, ?_⟩
                  · simpa only [frameCallId] using hsome
                  · rw [hst]
                    simp only [frameCallId, frameParams]
                · have htcf : toolCallFrame raw = true := by
                    simp only [toolCallFrame, plainObjFrame]
                    rw [h1, h2, bool_not_true herr, bool_not_true hconv, bool_not_true hreas,
                      hres, htcid, htid]
                    rfl
                  right; right; right; right
                  refine ⟨htcf, ?_, ?_⟩
                  · simpa only [frameCallId] using hnone
                  · rw [hst]
                    simp only [frameCallId, frameToolId, frameParams]
              · next htcid =>
                split at h
                · left; rw [handleTextChunk_ok h]
                · split at h
                  · left; rw [handleMessageContent_ok h]
                  · split at h
                    · left; rw [handleRound_ok h]
                    · simp only [Except.ok.injEq, Prod.mk.injEq] at h
                      left
                      rw [← h.1]
    · left
      exact processFrame_nondict_data h1 (bool_not_true h2) h
  · cases raw with
    | obj fs => simp [isDict] at h1
    | null => simp [processFrame, pyDictGetD] at h
    | bool b => simp [processFrame, pyDictGetD] at h
    | num n => simp [processFrame, pyDictGetD] at h
    | str s => simp [processFrame, pyDictGetD] at h
    | arr xs => simp [processFrame, pyDictGetD] at h

theorem step_count_le_one {st st' : OState} {raw : Json} {evs : List CEvent} {cs : String}
    (h : processFrame st raw = .ok (st', evs))
    (hinv : countMatches st.steps (Json.str cs) ≤ 1) :
    countMatches st'.steps (Json.str cs) ≤ 1 := by
  have hnull : (Json.str cs) ≠ Json.null := by simp
  rcases processFrame_steps_shape h with hsame | ⟨t, ht⟩ | ⟨_, hst⟩ | ⟨_, _, hst⟩ | ⟨_, hnone, hst⟩
  · rw [hsame]; exact hinv
  · rw [ht, countMatches_append, stepMatches_reasoningStep_false t hnull]
    simpa using hinv
  · rw [hst, countMatches_updateResults]; exact hinv
  · rw [hst]
    split
    · rw [countMatches_updateParams]; exact hinv
    · exact hinv
  · rw [hst, countMatches_append]
    cases hm : stepMatches (Json.str cs) (mkToolStep (frameCallId raw) (frameToolId raw) (frameParams raw))
    · simpa using hinv
    · have hceq : frameCallId raw = Json.str cs := by
        rw [stepMatches_mkToolStep] at hm
        exact (Json.beq_iff _ _).mp hm
      rw [hceq] at hnone
      rw [stepFor_none_count st.steps hnone]
      simp

theorem step_keep {st st' : OState} {raw : Json} {evs : List CEvent} {cs : String}
    (h : processFrame st raw = .ok (st', evs))
    (hs : (stepFor st.steps (Json.str cs)).isSome = true) :
    (stepFor st'.steps (Json.str cs)).isSome = true ∧
      countMatches st'.steps (Json.str cs) = countMatches st.steps (Json.str cs) := by
  have hnull : (Json.str cs) ≠ Json.null := by simp
  rcases processFrame_steps_shape h with hsame | ⟨t, ht⟩ | ⟨_, hst⟩ | ⟨_, _, hst⟩ | ⟨_, hnone, hst⟩
  · rw [hsame]; exact ⟨hs, rfl⟩
  · rw [ht]
    constructor
    · unfold stepFor at hs ⊢
      rw [find?_append_left hs]
      exact hs
    · rw [countMatches_append, stepMatches_reasoningStep_false t hnull]
      simp
  · rw [hst]
    exact ⟨by rw [stepFor_updateResults_isSome]; exact hs, countMatches_updateResults _ _ _ _⟩
  · rw [hst]
    split
    · exact ⟨by rw [stepFor_updateParams_isSome]; exact hs, countMatches_updateParams _ _ _ _⟩
    · exact ⟨hs, rfl⟩
  · have hne : frameCallId raw ≠ Json.str cs := by
      intro hceq
      rw [hceq] at hnone
      unfold stepFor at hs
      rw [hnone] at hs
      simp at hs
    have hm : stepMatches (Json.str cs)
        (mkToolStep (frameCallId raw) (frameToolId raw) (frameParams raw)) = false := by
      rw [stepMatches_mkToolStep]
      exact bool_not_true (fun hb => hne ((Json.beq_iff _ _).mp hb))
    rw [hst]
    constructor
    · unfold stepFor at hs ⊢
      rw [find?_append_left hs]
      exact hs
    · rw [countMatches_append, hm]
      simp

theorem step_results_keep {st st' : OState} {raw : Json} {evs : List CEvent} {cs : String}
    (h : processFrame st raw = .ok (st', evs))
    (hs : (stepFor st.steps (Json.str cs)).isSome = true)
    (hnr : ¬(toolResultFrame raw = true ∧ frameCallId raw = Json.str cs)) :
    resultsView st'.steps (Json.str cs) = resultsView st.steps (Json.str cs) := by
  rcases processFrame_steps_shape h with hsame | ⟨t, ht⟩ | ⟨htr, hst⟩ | ⟨_, _, hst⟩ | ⟨_, hnone, hst⟩
  · rw [hsame]
  · rw [ht]
    unfold stepFor at hs
    unfold resultsView stepFor
    rw [find?_append_left hs]
  · have hne : frameCallId raw ≠ Json.str cs := fun hceq => hnr ⟨htr, hceq⟩
    rw [hst, resultsView_updateResults_ne _ _ hne]
  · rw [hst]
    split
    · rw [resultsView_updateParams]
    · rfl
  · rw [hst]
    unfold stepFor at hs
    unfold resultsView stepFor
    rw [find?_append_left hs]

theorem step_params_keep {st st' : OState} {raw : Json} {evs : List CEvent} {cs : String}
    (h : processFrame st raw = .ok (st', evs))
    (hs : (stepFor st.steps (Json.str cs)).isSome = true)
    (hnc : ¬(toolCallFrame raw = true ∧ frameCallId raw = Json.str cs ∧
      pyTruthy (frameParams raw) = true)) :
    paramsView st'.steps (Json.str cs) = paramsView st.steps (Json.str cs) := by
  rcases processFrame_steps_shape h with hsame | ⟨t, ht⟩ | ⟨_, hst⟩ | ⟨htcf, _, hst⟩ | ⟨_, hnone, hst⟩
  · rw [hsame]
  · rw [ht]
    unfold stepFor at hs
    unfold paramsView stepFor
    rw [find?_append_left hs]
  · rw [hst, paramsView_updateResults]
  · rw [hst]
    split
    · next htr =>
      have hne : frameCallId raw ≠ Json.str cs := fun hceq => hnc ⟨htcf, hceq, htr⟩
      rw [paramsView_updateParams_ne _ _ hne]
    · rfl
  · rw [hst]
    unfold stepFor at hs
    unfold paramsView stepFor
    rw [find?_append_left hs]

theorem runFrames_cons_ok {st : OState} {f : Json} {fs : List Json} {st' : OState}
    (h : (runFrames st (f :: fs)).2 = .ok st') :
    ∃ st1 evs, processFrame st f = .ok (st1, evs) ∧ (runFrames st1 fs).2 = .ok st' := by
  cases hp : processFrame st f with
  | error e =>
    rw [runFrames, hp] at h
    simp at h
  | ok pr =>
    obtain ⟨st1, evs⟩ := pr
    rw [runFrames, hp] at h
    exact ⟨st1, evs, rfl, h⟩

theorem runFrames_append_ok {st : OState} {xs ys : List Json} {st' : OState}
    (h : (runFrames st (xs ++ ys)).2 = .ok st') :
    ∃ st1, (runFrames st xs).2 = .ok st1 ∧ (runFrames st1 ys).2 = .ok st' := by
  induction xs generalizing st with
  | nil => exact ⟨st, rfl, by simpa using h⟩
  | cons f fs ih =>
    rw [List.cons_append] at h
    obtain ⟨st1, evs, hp, hrest⟩ := runFrames_cons_ok h
    obtain ⟨st2, hxs, hys⟩ := ih hrest
    refine ⟨st2, ?_, hys⟩
    rw [runFrames, hp]
    exact hxs

theorem runFrames_inv_le_one {fs : List Json} {st st' : OState} {cs : String}
    (h : (runFrames st fs).2 = .ok st')
    (hinv : countMatches st.steps (Json.str cs) ≤ 1) :
    countMatches st'.steps (Json.str cs) ≤ 1 := by
  induction fs generalizing st with
  | nil =>
    simp only [runFrames, Except.ok.injEq] at h
    rw [← h]
    exact hinv
  | cons f rest ih =>
    obtain ⟨st1, evs, hp, hrest⟩ := runFrames_cons_ok h
    exact ih hrest (step_count_le_one hp hinv)

theorem runFrames_keep {fs : List Json} {st st' : OState} {cs : String}
    (h : (runFrames st fs).2 = .ok st')
    (hs : (stepFor st.steps (Json.str cs)).isSome = true) :
    (stepFor st'.steps (Json.str cs)).isSome = true ∧
      countMatches st'.steps (Json.str cs) = countMatches st.steps (Json.str cs) := by
  induction fs generalizing st with
  | nil =>
    simp only [runFrames, Except.ok.injEq] at h
    rw [← h]
    exact ⟨hs, rfl⟩
  | cons f rest ih =>
    obtain ⟨st1, evs, hp, hrest⟩ := runFrames_cons_ok h
    obtain ⟨hs1, hc1⟩ := step_keep hp hs
    obtain ⟨hs2, hc2⟩ := ih hrest hs1
    exact ⟨hs2, hc2.trans hc1⟩

theorem runFrames_results_keep {fs : List Json} {st st' : OState} {cs : String}
    (h : (runFrames st fs).2 = .ok st')
    (hs : (stepFor st.steps (Json.str cs)).isSome = true)
    (hno : ∀ f ∈ fs, ¬(toolResultFrame f = true ∧ frameCallId f = Json.str cs)) :
    resultsView st'.steps (Json.str cs) = resultsView st.steps (Json.str cs) := by
  induction fs generalizing st with
  | nil =>
    simp only [runFrames, Except.ok.injEq] at h
    rw [← h]
  | cons f rest ih =>
    obtain ⟨st1, evs, hp, hrest⟩ := runFrames_cons_ok h
    obtain ⟨hs1, _⟩ := step_keep hp hs
    have h1 := step_results_keep hp hs (hno f (by simp))
    have h2 := ih hrest hs1 (fun g hg => hno g (by simp [hg]))
    exact h2.trans h1

theorem runFrames_params_keep {fs : List Json} {st st' : OState} {cs : String}
    (h : (runFrames st fs).2 = .ok st')
    (hs : (stepFor st.steps (Json.str cs)).isSome = true)
    (hno : ∀ f ∈ fs, ¬(toolCallFrame f = true ∧ frameCallId f = Json.str cs ∧
      pyTruthy (frameParams f) = true)) :
    paramsView st'.steps (Json.str cs) = paramsView st.steps (Json.str cs) := by
  induction fs generalizing st with
  | nil =>
    simp only [runFrames, Except.ok.injEq] at h
    rw [← h]
  | cons f rest ih =>
    obtain ⟨st1, evs, hp, hrest⟩ := runFrames_cons_ok h
    obtain ⟨hs1, _⟩ := step_keep hp hs
    have h1 := step_params_keep hp hs (hno f (by simp))
    have h2 := ih hrest hs1 (fun g hg => hno g (by simp [hg]))
    exact h2.trans h1

/-- C4: for every upstream stream containing a recordable tool-call frame
for call id `cs` followed later by a tool-result frame for `cs` — the last
tool-result frame for `cs` in the stream — the final StepLedger of a
gracefully completing run contains exactly one step whose `tool_call_id`
equals `cs` (no duplicate step is ever appended), and that step's `results`
field equals the results carried by that tool-result frame. -/
theorem c4_unique_step_with_results (a b c : List Json) (f₁ f₂ : Json) (cs : String)
    (st : OState)
    (h₁ : toolCallFrame f₁ = true) (h₂ : frameCallId f₁ = Json.str cs)
    (h₃ : toolResultFrame f₂ = true) (h₄ : frameCallId f₂ = Json.str cs)
    (h₅ : ∀ f ∈ c, ¬(toolResultFrame f = true ∧ frameCallId f = Json.str cs))
    (h₆ : (runFrames initState (a ++ f₁ :: (b ++ f₂ :: c))).2 = .ok st) :
    countMatches st.steps (Json.str cs) = 1 ∧
      resultsView st.steps (Json.str cs) = some (frameResults f₂) := by
  have hnull : (Json.str cs) ≠ Json.null := by simp
  obtain ⟨stA, hA, hrest⟩ := runFrames_append_ok h₆
  obtain ⟨st1, evs1, hf₁, hrest1⟩ := runFrames_cons_ok hrest
  obtain ⟨stB, hB, hrest2⟩ := runFrames_append_ok hrest1
  obtain ⟨st2, evs2, hf₂, hC⟩ := runFrames_cons_ok hrest2
  have hinv0 : countMatches initState.steps (Json.str cs) ≤ 1 := by
    simp [initState, countMatches, List.filter]
  have hinvA := runFrames_inv_le_one hA hinv0
  have hest : (stepFor st1.steps (Json.str cs)).isSome = true ∧
      countMatches st1.steps (Json.str cs) = 1 := by
    cases hfind : stepFor stA.steps (Json.str cs) with
    | some s =>
      have hsome : (stepFor stA.steps (Json.str cs)).isSome = true := by rw [hfind]; rfl
      obtain ⟨hs1, hc1⟩ := step_keep hf₁ hsome
      refine ⟨hs1, ?_⟩
      rw [hc1]
      have hpos := stepFor_isSome_count_pos stA.steps hsome
      omega
    | none =>
      have hnone' : stA.steps.find? (stepMatches (frameCallId f₁)) = none := by
        rw [h₂]; exact hfind
      rw [processFrame_toolCall_new h₁ hnone'] at hf₁
      simp only [Except.ok.injEq, Prod.mk.injEq] at hf₁
      obtain ⟨hst1, _⟩ := hf₁
      rw [← hst1]
      have hm : stepMatches (Json.str cs)
          (mkToolStep (frameCallId f₁) (frameToolId f₁) (frameParams f₁)) = true := by
        rw [stepMatches_mkToolStep, h₂]
        exact (Json.beq_iff _ _).mpr rfl
      constructor
      · unfold stepFor
        rw [find?_append_right hfind, List.find?_cons_of_pos _ hm]
        rfl
      · rw [countMatches_append, hm, stepFor_none_count stA.steps hfind]
        simp
  obtain ⟨hsB, hcB⟩ := runFrames_keep hB hest.1
  rw [hest.2] at hcB
  have hf₂' : st2 = { stB with
      steps := updateResults stB.steps (frameCallId f₂) (frameResults f₂) } := by
    rw [processFrame_toolResult h₃] at hf₂
    simp only [Except.ok.injEq, Prod.mk.injEq] at hf₂
    exact hf₂.1.symm
  have hs2 : (stepFor st2.steps (Json.str cs)).isSome = true := by
    rw [hf₂']
    show (stepFor (updateResults stB.steps (frameCallId f₂) (frameResults f₂)) (Json.str cs)).isSome = true
    rw [stepFor_updateResults_isSome]
    exact hsB
  have hc2 : countMatches st2.steps (Json.str cs) = 1 := by
    rw [hf₂']
    show countMatches (updateResults stB.steps (frameCallId f₂) (frameResults f₂)) (Json.str cs) = 1
    rw [countMatches_updateResults]
    exact hcB
  have hr2 : resultsView st2.steps (Json.str cs) = some (frameResults f₂) := by
    rw [hf₂']
    show resultsView (updateResults stB.steps (frameCallId f₂) (frameResults f₂)) (Json.str cs) = _
    rw [h₄]
    exact resultsView_updateResults_found stB.steps (frameResults f₂) hnull hsB
  obtain ⟨_, hcF⟩ := runFrames_keep hC hs2
  have hrF := runFrames_results_keep hC hs2 h₅
  exact ⟨hcF.trans hc2, hrF.trans hr2⟩

/-- C4 witness: a tool call for `t1` followed by its tool result leaves one
step for `t1` whose results are the result frame's results. -/
theorem c4_unique_step_with_results_witness :
    countMatches c4WitnessState.steps (Json.str "t1") = 1 ∧
      resultsView c4WitnessState.steps (Json.str "t1") =
        some (frameResults searchToolResultFrame) :=
  c4_unique_step_with_results [] [] [] searchToolCallFrame searchToolResultFrame "t1"
    c4WitnessState rfl rfl rfl rfl (by simp) rfl

/-- C5: for every upstream stream containing two tool-call frames for the
same call id `cs` (both with a truthy `tool_id`), the first with empty
(falsy) `params` and the second with non-empty (truthy) `params`, where no
later tool-call frame for `cs` carries truthy `params`, the final ledger
step for `cs` of a gracefully completing run has `params` equal to the
second frame's `params`: later frames with empty params never overwrite
stored non-empty params. -/
theorem c5_last_nonempty_params_wins (a b c : List Json) (f₁ f₂ : Json) (cs : String)
    (st : OState)
    (_h₁ : toolCallFrame f₁ = true) (_h₂ : frameCallId f₁ = Json.str cs)
    (_h₃ : pyTruthy (frameParams f₁) = false)
    (h₄ : toolCallFrame f₂ = true) (h₅ : frameCallId f₂ = Json.str cs)
    (h₆ : pyTruthy (frameParams f₂) = true)
    (h₇ : ∀ f ∈ c, ¬(toolCallFrame f = true ∧ frameCallId f = Json.str cs ∧
      pyTruthy (frameParams f) = true))
    (h₈ : (runFrames initState (a ++ f₁ :: (b ++ f₂ :: c))).2 = .ok st) :
    paramsView st.steps (Json.str cs) = some (frameParams f₂) := by
  have hnull : (Json.str cs) ≠ Json.null := by simp
  obtain ⟨stA, hA, hrest⟩ := runFrames_append_ok h₈
  obtain ⟨st1, evs1, hf₁, hrest1⟩ := runFrames_cons_ok hrest
  obtain ⟨stB, hB, hrest2⟩ := runFrames_append_ok hrest1
  obtain ⟨st2, evs2, hf₂, hC⟩ := runFrames_cons_ok hrest2
  have hset : paramsView st2.steps (Json.str cs) = some (frameParams f₂) ∧
      (stepFor st2.steps (Json.str cs)).isSome = true := by
    cases hfind : stepFor stB.steps (Json.str cs) with
    | some s =>
      have hsome : (stepFor stB.steps (Json.str cs)).isSome = true := by rw [hfind]; rfl
      have hsome' : (stepFor stB.steps (frameCallId f₂)).isSome = true := by
        rw [h₅]; exact hsome
      rw [processFrame_toolCall_existing h₄ hsome'] at hf₂
      simp only [Except.ok.injEq, Prod.mk.injEq] at hf₂
      have hst2 : st2 = { stB with
          steps := updateParams stB.steps (frameCallId f₂) (frameParams f₂) } := by
        rw [← hf₂.1, h₆]
        simp
      constructor
      · rw [hst2]
        show paramsView (updateParams stB.steps (frameCallId f₂) (frameParams f₂)) (Json.str cs) = _
        rw [h₅]
        exact paramsView_updateParams_found stB.steps (frameParams f₂) hnull hsome
      · rw [hst2]
        show (stepFor (updateParams stB.steps (frameCallId f₂) (frameParams f₂)) (Json.str cs)).isSome = true
        rw [stepFor_updateParams_isSome]
        exact hsome
    | none =>
      have hnone' : stB.steps.find? (stepMatches (frameCallId f₂)) = none := by
        rw [h₅]; exact hfind
      rw [processFrame_toolCall_new h₄ hnone'] at hf₂
      simp only [Except.ok.injEq, Prod.mk.injEq] at hf₂
      obtain ⟨hst2, _⟩ := hf₂
      rw [← hst2]
      have hm : stepMatches (Json.str cs)
          (mkToolStep (frameCallId f₂) (frameToolId f₂) (frameParams f₂)) = true := by
        rw [stepMatches_mkToolStep, h₅]
        exact (Json.beq_iff _ _).mpr rfl
      constructor
      · unfold paramsView stepFor
        rw [find?_append_right hfind, List.find?_cons_of_pos _ hm]
        simp only [Option.map_some']
        rw [objGet_mkToolStep_params]
      · unfold stepFor
        rw [find?_append_right hfind, List.find?_cons_of_pos _ hm]
        rfl
  have hpF := runFrames_params_keep hC hset.2 h₇
  exact hpF.trans hset.1

/-- C5 witness: an empty-params tool call for `t1` followed by one with
params `q=tent` leaves the step's params equal to `q=tent`. -/
theorem c5_last_nonempty_params_wins_witness :
    paramsView c5WitnessState.steps (Json.str "t1") = some (frameParams searchToolCallFrame) :=
  c5_last_nonempty_params_wins [] [] [] emptyParamsToolCallFrame searchToolCallFrame "t1"
    c5WitnessState rfl rfl rfl rfl rfl rfl (by simp) rfl

theorem utf8DecodeOne_length {l : List Nat} {c : Char} {r : List Nat}
    (h : utf8DecodeOne l = some (c, r)) : r.length < l.length := by
  cases l with
  | nil => simp [utf8DecodeOne] at h
  | cons b0 rest =>
    rw [utf8DecodeOne.eq_def] at h
    dsimp only at h
    by_cases h0 : b0 ≤ 0x7F
    · rw [if_pos h0] at h
      simp only [Option.some.injEq, Prod.mk.injEq] at h
      rw [← h.2]
      simp
    · by_cases h1 : 0xC2 ≤ b0 ∧ b0 ≤ 0xDF
      · rw [if_neg h0, if_pos h1] at h
        cases rest with
        | nil => simp at h
        | cons b1 rest1 =>
          by_cases h2 : utf8Cont b1 = true
          · simp only [h2, if_true] at h
            simp only [Option.some.injEq, Prod.mk.injEq] at h
            rw [← h.2]
            simp only [List.length_cons]
            omega
          · simp [h2] at h
      · by_cases h3 : 0xE0 ≤ b0 ∧ b0 ≤ 0xEF
        · rw [if_neg h0, if_neg h1, if_pos h3] at h
          cases rest with
          | nil => simp at h
          | cons b1 rest' =>
            cases rest' with
            | nil => simp at h
            | cons b2 rest2 =>
              by_cases h4 : (utf8Cont3 b0 b1 && utf8Cont b2) = true
              · simp only [h4, if_true] at h
                simp only [Option.some.injEq, Prod.mk.injEq] at h
                rw [← h.2]
                simp only [List.length_cons]
                omega
              · simp [h4] at h
        · by_cases h5 : 0xF0 ≤ b0 ∧ b0 ≤ 0xF4
          · rw [if_neg h0, if_neg h1, if_neg h3, if_pos h5] at h
            cases rest with
            | nil => simp at h
            | cons b1 ra =>
              cases ra with
              | nil => simp at h
              | cons b2 rb =>
                cases rb with
                | nil => simp at h
                | cons b3 rest3 =>
                  by_cases h6 : (utf8Cont4 b0 b1 && utf8Cont b2 && utf8Cont b3) = true
                  · simp only [h6, if_true] at h
                    simp only [Option.some.injEq, Prod.mk.injEq] at h
                    rw [← h.2]
                    simp only [List.length_cons]
                    omega
                  · simp [h6] at h
          · rw [if_neg h0, if_neg h1, if_neg h3, if_neg h5] at h
            simp at h

theorem utf8DecodeOne_append {a : List Nat} {c : Char} {r : List Nat} (b : List Nat)
    (h : utf8DecodeOne a = some (c, r)) :
    utf8DecodeOne (a ++ b) = some (c, r ++ b) := by
  cases a with
  | nil => simp [utf8DecodeOne] at h
  | cons b0 rest =>
    rw [utf8DecodeOne.eq_def] at h
    dsimp only at h
    by_cases h0 : b0 ≤ 0x7F
    · rw [if_pos h0] at h
      simp only [Option.some.injEq, Prod.mk.injEq] at h
      simp [utf8DecodeOne.eq_def, h0, ← h.1, ← h.2]
    · by_cases h1 : 0xC2 ≤ b0 ∧ b0 ≤ 0xDF
      · rw [if_neg h0, if_pos h1] at h
        cases rest with
        | nil => simp at h
        | cons b1 rest1 =>
          by_cases h2 : utf8Cont b1 = true
          · simp only [h2, if_true] at h
            simp only [Option.some.injEq, Prod.mk.injEq] at h
            simp [utf8DecodeOne.eq_def, h0, h1, h2, ← h.1, ← h.2]
          · simp [h2] at h
      · by_cases h3 : 0xE0 ≤ b0 ∧ b0 ≤ 0xEF
        · rw [if_neg h0, if_neg h1, if_pos h3] at h
          cases rest with
          | nil => simp at h
          | cons b1 rest' =>
            cases rest' with
            | nil => simp at h
            | cons b2 rest2 =>
              by_cases h4 : (utf8Cont3 b0 b1 && utf8Cont b2) = true
              · simp only [h4, if_true] at h
                simp only [Option.some.injEq, Prod.mk.injEq] at h
                simp [utf8DecodeOne.eq_def, h0, h1, h3, h4, ← h.1, ← h.2]
              · simp [h4] at h
        · by_cases h5 : 0xF0 ≤ b0 ∧ b0 ≤ 0xF4
          · rw [if_neg h0, if_neg h1, if_neg h3, if_pos h5] at h
            cases rest with
            | nil => simp at h
            | cons b1 ra =>
              cases ra with
              | nil => simp at h
              | cons b2 rb =>
                cases rb with
                | nil => simp at h
                | cons b3 rest3 =>
                  by_cases h6 : (utf8Cont4 b0 b1 && utf8Cont b2 && utf8Cont b3) = true
                  · simp only [h6, if_true] at h
                    simp only [Option.some.injEq, Prod.mk.injEq] at h
                    simp [utf8DecodeOne.eq_def, h0, h1, h3, h5, h6, ← h.1, ← h.2]
                  · simp [h6] at h
          · rw [if_neg h0, if_neg h1, if_neg h3, if_neg h5] at h
            simp at h

theorem utf8DecodeFuel_mono : ∀ (n m : Nat) (l : List Nat), l.length ≤ n → l.length ≤ m →
    utf8DecodeFuel n l = utf8DecodeFuel m l := by
  intro n
  induction n with
  | zero =>
    intro m l h1 h2
    cases l with
    | nil => cases m <;> rfl
    | cons b0 rest => simp at h1
  | succ n ih =>
    intro m l h1 h2
    cases l with
    | nil => cases m <;> rfl
    | cons b0 rest =>
      cases m with
      | zero => simp at h2
      | succ m' =>
        rw [utf8DecodeFuel, utf8DecodeFuel]
        cases hone : utf8DecodeOne (b0 :: rest) with
        | none => rfl
        | some p =>
          obtain ⟨c, r⟩ := p
          have hlt := utf8DecodeOne_length hone
          simp only [List.length_cons] at h1 h2 hlt
          dsimp only
          rw [ih m' r (by omega) (by omega)]

theorem utf8Decode_append : ∀ (n : Nat) (a b : List Nat) (cs : List Char), a.length ≤ n →
    utf8Decode a = some cs →
    utf8Decode (a ++ b) = (utf8Decode b).map (fun ds => cs ++ ds) := by
  intro n
  induction n with
  | zero =>
    intro a b cs hlen h
    cases a with
    | nil =>
      simp only [utf8Decode, utf8DecodeFuel, List.length_nil, Option.some.injEq] at h
      rw [← h]
      simp [List.nil_append]
    | cons b0 rest => simp at hlen
  | succ n ih =>
    intro a b cs hlen h
    cases a with
    | nil =>
      simp only [utf8Decode, utf8DecodeFuel, List.length_nil, Option.some.injEq] at h
      rw [← h]
      simp [List.nil_append]
    | cons b0 rest =>
      simp only [utf8Decode, List.length_cons] at h
      rw [utf8DecodeFuel] at h
      cases hone : utf8DecodeOne (b0 :: rest) with
      | none => rw [hone] at h; simp at h
      | some p =>
        obtain ⟨c, r⟩ := p
        rw [hone] at h
        dsimp only at h
        cases hr : utf8DecodeFuel rest.length r with
        | none => rw [hr] at h; simp at h
        | some cs' =>
          rw [hr] at h
          simp only [Option.map_some', Option.some.injEq] at h
          have hlt := utf8DecodeOne_length hone
          simp only [List.length_cons] at hlt hlen
          have hrdec : utf8Decode r = some cs' := by
            unfold utf8Decode
            rw [utf8DecodeFuel_mono r.length rest.length r (le_refl _) (by omega)]
            exact hr
          rw [List.cons_append]
          show utf8DecodeFuel (b0 :: (rest ++ b)).length (b0 :: (rest ++ b)) = _
          simp only [List.length_cons]
          rw [utf8DecodeFuel,
            show utf8DecodeOne (b0 :: (rest ++ b)) = some (c, r ++ b) from
              utf8DecodeOne_append b hone]
          dsimp only
          have hmid : utf8DecodeFuel (rest ++ b).length (r ++ b) = utf8Decode (r ++ b) := by
            unfold utf8Decode
            rw [utf8DecodeFuel_mono (rest ++ b).length (r ++ b).length (r ++ b)
              (by simp only [List.length_append]; omega) (le_refl _)]
          rw [hmid, ih r b cs' (by omega) hrdec]
          cases utf8Decode b <;> simp [← h]

theorem utf8DecodeChunks_ok : ∀ (chunks : List (List Nat)),
    (∀ ch ∈ chunks, (utf8Decode ch).isSome = true) →
    (utf8DecodeChunks chunks).2 = false ∧
      utf8Decode chunks.flatten = some (utf8DecodeChunks chunks).1.flatten := by
  intro chunks
  induction chunks with
  | nil =>
    intro _
    exact ⟨rfl, rfl⟩
  | cons ch rest ih =>
    intro hall
    have hch : (utf8Decode ch).isSome = true := hall ch (by simp)
    obtain ⟨cs, hcs⟩ : ∃ cs, utf8Decode ch = some cs := by
      cases hd : utf8Decode ch
      · rw [hd] at hch; simp at hch
      · exact ⟨_, rfl⟩
    obtain ⟨ihf, ihd⟩ := ih (fun g hg => hall g (by simp [hg]))
    rw [utf8DecodeChunks, hcs]
    constructor
    · exact ihf
    · simp only [List.flatten_cons]
      rw [utf8Decode_append ch.length ch rest.flatten cs (le_refl _) hcs, ihd]
      rfl

/-- C3 (counterexample): contrary to the claim, the decoder's output does
depend on chunk boundaries. The bytes of the line `data: ` + é + newline,
fed as a single chunk, decode to one frame with no error; the same bytes
cut between the two bytes `0xC3 0xA9` of é make the first `chunk.decode()`
raise `UnicodeDecodeError`, so no frame is produced and the error flag is
set. -/
theorem c3_chunking_counterexample :
    ([c3SplitChunkA, c3SplitChunkB] : List (List Nat)).flatten = [c3WholeChunk].flatten ∧
    (decodeFramesBytes parseAsString [c3SplitChunkA, c3SplitChunkB]).1 ≠
      (decodeFramesBytes parseAsString [c3WholeChunk]).1 ∧
    (decodeFramesBytes parseAsString [c3SplitChunkA, c3SplitChunkB]).2 = true ∧
    (decodeFramesBytes parseAsString [c3WholeChunk]).2 = false := by
  refine ⟨by decide, ?_, rfl, rfl⟩
  intro h
  exact absurd (congrArg List.length h) (by decide)

/-- C3 (amended): for every finite total byte sequence and every two ways
of partitioning it into chunks such that every chunk is itself valid UTF-8
(no chunk boundary splits a multi-byte character), feeding either chunk
sequence to the frame decoder yields the identical frames and no decode
error; without that restriction the per-chunk `chunk.decode()` raises
`UnicodeDecodeError` on a chunk ending mid-character. -/
theorem c3_amended_chunking_invariance (parse : List Char → Option Json)
    (chunks₁ chunks₂ : List (List Nat))
    (h : chunks₁.flatten = chunks₂.flatten)
    (h₁ : ∀ ch ∈ chunks₁, (utf8Decode ch).isSome = true)
    (h₂ : ∀ ch ∈ chunks₂, (utf8Decode ch).isSome = true) :
    decodeFramesBytes parse chunks₁ = decodeFramesBytes parse chunks₂ := by
  obtain ⟨hf₁, hd₁⟩ := utf8DecodeChunks_ok chunks₁ h₁
  obtain ⟨hf₂, hd₂⟩ := utf8DecodeChunks_ok chunks₂ h₂
  rw [← h] at hd₂
  have hchars : (utf8DecodeChunks chunks₁).1.flatten = (utf8DecodeChunks chunks₂).1.flatten := by
    have hss := hd₁.symm.trans hd₂
    exact Option.some.inj hss
  show (decodeFrames parse (utf8DecodeChunks chunks₁).1, (utf8DecodeChunks chunks₁).2) =
    (decodeFrames parse (utf8DecodeChunks chunks₂).1, (utf8DecodeChunks chunks₂).2)
  rw [decodeFrames_flatten_invariant parse _ _ hchars, hf₁, hf₂]

/-- C3 (amended) witness: the two ASCII chunkings `data: a\nda` + `ta: b\n`
and `data: a\ndata: b\n` of the same bytes decode to the same frames. -/
theorem c3_amended_chunking_invariance_witness :
    ([asciiBytes "data: a\nda", asciiBytes "ta: b\n"] : List (List Nat)).flatten =
      [asciiBytes "data: a\ndata: b\n"].flatten ∧
    decodeFramesBytes parseAsString [asciiBytes "data: a\nda", asciiBytes "ta: b\n"] =
      decodeFramesBytes parseAsString [asciiBytes "data: a\ndata: b\n"] :=
  ⟨by decide,
    c3_amended_chunking_invariance parseAsString
      [asciiBytes "data: a\nda", asciiBytes "ta: b\n"]
      [asciiBytes "data: a\ndata: b\n"] (by decide) (by decide) (by decide)⟩
